import Mathlib

/-!
# The include/exclude filter of rsync (`exclude.c`)

A shallow embedding of `exclude.c`: the pattern compiler `make_exclude`, the
single-rule matcher `check_one_exclude`, the list evaluator `check_exclude`,
the list builder `add_exclude_list` and the wire codec
`send_exclude_list` / `recv_exclude_list`.

Conventions of the embedding:

* a C string is a `List Char` (the characters before the terminating NUL);
* a NULL-terminated array of rules is a `List exclude_struct`, the NULL
  pointer being the empty list;
* a C truth value (`int` 0 / 1) returned by `check_one_exclude` and
  `check_exclude` is a `Bool` (`false` is 0, `true` is 1);
* the field and the argument `include` are written `include_`;
* of `STRUCT_STAT *st` only `S_ISDIR(st->st_mode)` is read: it is the
  argument `isdir`;
* the process-wide `exclude_list` is passed explicitly.
-/

namespace Exclude

/-! ## Constants and the rule record (declared in `rsync.h`) -/

/-- Flag bit of `match_flags`: the pattern holds one of `*`, `[`, `?`.
The three flag bits are declared in `rsync.h` as distinct single bits. -/
def MATCHFLG_WILD : Nat := 1

/-- Flag bit of `match_flags`: the pattern holds `**`. -/
def MATCHFLG_WILD2 : Nat := 2

/-- Flag bit of `match_flags`: the pattern starts with `**`. -/
def MATCHFLG_WILD2_PREFIX : Nat := 4

/-- The `fnmatch` flag that makes `/` a separator no wildcard matches. -/
def FNM_PATHNAME : Nat := 1

/-- The result of `fnmatch` when the string does not match (0 is a match). -/
def FNM_NOMATCH : Nat := 1

/-- The record `struct exclude_struct` of `rsync.h`. -/
structure exclude_struct where
  pattern : List Char
  match_flags : Nat
  include_ : Bool
  directory : Bool
  slash_cnt : Nat
  deriving DecidableEq, Repr

/-! ## C library functions used by `exclude.c` -/

/-- C `strchr(s, c)`: the rest of `s` from the first `c` on, or none. -/
def strchr : List Char → Char → Option (List Char)
  | [], _ => none
  | x :: s, c => if x = c then some (x :: s) else strchr s c

/-- C `strrchr(s, c)`: the rest of `s` from the last `c` on, or none. -/
def strrchr : List Char → Char → Option (List Char)
  | [], _ => none
  | x :: s, c =>
    match strrchr s c with
    | some r => some r
    | none => if x = c then some (x :: s) else none

/-- C `strpbrk(s, accept) != NULL`: some character of `s` is in `accept`. -/
def strpbrk (s accept : List Char) : Bool :=
  s.any (fun c => accept.contains c)

/-- C `strstr(s, t) != NULL`: `t` occurs in `s` as a substring. -/
def strstr : List Char → List Char → Bool
  | [], t => t.isEmpty
  | x :: s, t => t.isPrefixOf (x :: s) || strstr s t

/-- C `strncmp(s, t, n) == 0` for a `t` of length `n`: `s` starts with `t`. -/
def strncmp_eq (s t : List Char) (n : Nat) : Bool :=
  s.take n == t.take n

/-- BSD `strlcpy(dst, src, size)`: the contents of `dst` afterwards, at most
`size - 1` characters of `src`. -/
def strlcpy (src : List Char) (size : Nat) : List Char :=
  src.take (size - 1)

/-- BSD `strlcat(dst, src, size)`: the contents of `dst` afterwards, `src`
appended as far as `size - 1` characters in all allow. -/
def strlcat (dst src : List Char) (size : Nat) : List Char :=
  dst ++ src.take (size - 1 - dst.length)

/-! ## A model of `fnmatch` -/

/-- The members of a bracket expression, scanned up to the closing `]`:
`m` tells whether the character `c` was matched so far; the result is the
final verdict and the pattern that follows the `]`, or none when the bracket
is not closed. -/
def bracket_scan (c : Char) : List Char → Bool → Option (Bool × List Char)
  | [], _ => none
  | a :: rest, m =>
    if a = ']' then some (m, rest)
    else
      match rest with
      | x :: b :: rest2 =>
        if x = '-' ∧ b ≠ ']' then
          bracket_scan c rest2 (m || (decide (a ≤ c) && decide (c ≤ b)))
        else bracket_scan c (x :: b :: rest2) (m || decide (a = c))
      | [x] => bracket_scan c [x] (m || decide (a = c))
      | [] => none

/-- A bracket expression after its `[`: an optional `!` or `^` negates it,
and a `]` standing first is a member. -/
def bracket (c : Char) (p : List Char) : Option (Bool × List Char) :=
  let neg : Bool := p.head? = some '!' ∨ p.head? = some '^'
  let q := if neg then p.tail else p
  let r := match q with
    | [] => none
    | a :: rest => if a = ']' then bracket_scan c rest (decide (c = ']'))
                   else bracket_scan c (a :: rest) false
  r.map (fun x => (x.1 != neg, x.2))

/-- What `*` does: the continuation `k` is tried on every tail of the string
reached without stepping over a `/` when `pn` (FNM_PATHNAME) is set. -/
def star_match (k : List Char → Bool) (pn : Bool) : List Char → Bool
  | [] => k []
  | x :: n => k (x :: n) || (!(pn && x == '/') && star_match k pn n)

/-- The matcher of `fnmatch`, with the number of pattern steps bounded by
`fuel`; every step consumes a pattern character, so the pattern length plus
one is always enough. -/
def fnmatch_fuel : Nat → List Char → List Char → Bool → Bool
  | 0, _, _, _ => false
  | _ + 1, [], n, _ => n.isEmpty
  | fuel + 1, c :: p, n, pn =>
    if c = '*' then star_match (fun t => fnmatch_fuel fuel p t pn) pn n
    else if c = '?' then
      match n with
      | [] => false
      | x :: n2 => !(pn && x == '/') && fnmatch_fuel fuel p n2 pn
    else if c = '\\' then
      match p, n with
      | [], n => n == ['\\']
      | _ :: _, [] => false
      | e :: p2, x :: n2 => x == e && fnmatch_fuel fuel p2 n2 pn
    else if c = '[' then
      match n with
      | [] => false
      | x :: n2 =>
        if pn && x == '/' then false
        else
          match bracket x p with
          | some (m, rest) => m && fnmatch_fuel fuel rest n2 pn
          | none => x == '[' && fnmatch_fuel fuel p n2 pn
    else
      match n with
      | [] => false
      | x :: n2 => x == c && fnmatch_fuel fuel p n2 pn

/-- Modelled from the spec: `fnmatch(pattern, string, flags)` is the C
library's (or `lib/fnmatch.c`), outside `exclude.c`; this is the glob dialect
the specification names: `*`, `?`, bracket expressions (members, ranges,
`!`/`^` negation) and backslash escapes, where with `FNM_PATHNAME` no
wildcard matches a `/`. The result is 0 on a match and `FNM_NOMATCH`
otherwise. The only flags `exclude.c` passes are 0 and `FNM_PATHNAME`. -/
def fnmatch (pattern string : List Char) (flags : Nat) : Nat :=
  if fnmatch_fuel (pattern.length + 1) pattern string (flags &&& FNM_PATHNAME != 0)
  then 0 else FNM_NOMATCH

/-! ## The pattern compiler -/

/-- The text of a raw rule after its optional two-character polarity
marker, as `make_exclude` advances `pattern` (lines 45-52). -/
def skip_marker (pattern : List Char) : List Char :=
  if strncmp_eq pattern ['-', ' '] 2 then pattern.drop 2
  else if strncmp_eq pattern ['+', ' '] 2 then pattern.drop 2
  else pattern

/-- The function `make_exclude`: build a rule from a raw pattern and the
caller's default polarity. The one-time `fnmatch` probe only prints a
warning and is left out; allocation is assumed to succeed. -/
def make_exclude (pattern : List Char) (include_ : Bool) : exclude_struct :=
  let inc : Bool :=
    if strncmp_eq pattern ['-', ' '] 2 then false
    else if strncmp_eq pattern ['+', ' '] 2 then true
    else include_
  let pattern := skip_marker pattern
  let flags : Nat :=
    if strpbrk pattern ['*', '[', '?'] then
      if strstr pattern ['*', '*'] then
        if pattern.take 2 == ['*', '*'] then
          MATCHFLG_WILD ||| MATCHFLG_WILD2 ||| MATCHFLG_WILD2_PREFIX
        else MATCHFLG_WILD ||| MATCHFLG_WILD2
      else MATCHFLG_WILD
    else 0
  let dir : Bool := decide (pattern.length > 1) && pattern.getLast? == some '/'
  let pat := if dir then pattern.dropLast else pattern
  { pattern := pat, match_flags := flags, include_ := inc, directory := dir,
    slash_cnt := pat.count '/' }

/-! ## The single-rule matcher -/

/-- The loop of lines 124-129 run over the reversed name: `rev` is what lies
before the scanning pointer, last character first, `cnt` the counter and
`acc` the text after the pointer; the result is the new `name`. -/
def last_elements : List Char → Nat → List Char → List Char
  | [], _, acc => acc
  | c :: rev, cnt, acc =>
    if c = '/' then
      if cnt - 1 = 0 then acc else last_elements rev (cnt - 1) (c :: acc)
    else last_elements rev cnt (c :: acc)

/-- The loop of lines 145-149: the pattern is tried on the text after every
`/` of the name, from left to right. -/
def match_after_slashes (fm : List Char → List Char → Nat → Nat)
    (pattern : List Char) (flags : Nat) : List Char → Bool
  | [] => false
  | c :: name =>
    if c = '/' then
      fm pattern name flags == 0 || match_after_slashes fm pattern flags name
    else match_after_slashes fm pattern flags name

/-- The function `check_one_exclude`, with the `fnmatch` in use as the
argument `fm`. -/
def check_one_exclude (fm : List Char → List Char → Nat → Nat)
    (name : List Char) (ex : exclude_struct) (isdir : Bool) : Bool :=
  let name :=
    if ex.slash_cnt = 0 ∧ ex.match_flags &&& MATCHFLG_WILD2 = 0 then
      match strrchr name '/' with
      | some p => p.drop 1
      | none => name
    else name
  if name = [] then false
  else if ex.directory ∧ isdir = false then false
  else
    let match_start : Bool := ex.pattern.head? = some '/'
    let pattern := if match_start then ex.pattern.drop 1 else ex.pattern
    let name := if match_start ∧ name.head? = some '/' then name.drop 1 else name
    if ex.match_flags &&& MATCHFLG_WILD ≠ 0 then
      let fnmatch_flags := if ex.match_flags &&& MATCHFLG_WILD2 ≠ 0 then 0 else FNM_PATHNAME
      let name :=
        if match_start = false ∧ ex.slash_cnt ≠ 0 ∧ ex.match_flags &&& MATCHFLG_WILD2 = 0 then
          last_elements name.reverse (ex.slash_cnt + 1) []
        else name
      if fm pattern name fnmatch_flags = 0 then true
      else if ex.match_flags &&& MATCHFLG_WILD2_PREFIX ≠ 0 then
        decide (pattern.get? 2 = some '/') && fm (pattern.drop 3) name fnmatch_flags == 0
      else if match_start = false ∧ ex.match_flags &&& MATCHFLG_WILD2 ≠ 0 then
        match_after_slashes fm pattern fnmatch_flags name
      else false
    else if match_start then
      name == pattern
    else
      let l1 := name.length
      let l2 := pattern.length
      decide (l2 ≤ l1) && name.drop (l1 - l2) == pattern &&
        (decide (l1 = l2) || name.get? (l1 - (l2 + 1)) == some '/')

/-! ## The list evaluator -/

/-- One of the two loops of `check_exclude`: the verdict of the first rule
of the list that matches, or none when the loop runs to the end. -/
def check_list (fm : List Char → List Char → Nat → Nat)
    (name : List Char) (isdir : Bool) : List exclude_struct → Option Bool
  | [] => none
  | ent :: rest =>
    if check_one_exclude fm name ent isdir then some (!ent.include_)
    else check_list fm name isdir rest

/-- The function `check_exclude`: `exclude_list` is the process-wide list,
`local_exclude_list` the caller's. The report printed on a match is left
out. -/
def check_exclude (fm : List Char → List Char → Nat → Nat)
    (name : List Char) (exclude_list local_exclude_list : List exclude_struct)
    (isdir : Bool) : Bool :=
  if name = ['.'] then false
  else
    match check_list fm name isdir exclude_list with
    | some r => r
    | none =>
      match check_list fm name isdir local_exclude_list with
      | some r => r
      | none => false

/-! ## The list builder -/

/-- The function `add_exclude_list`: the list `*list` after the call. -/
def add_exclude_list (pattern : List Char) (list : List exclude_struct)
    (include_ : Bool) : List exclude_struct :=
  if pattern = ['!'] then []
  else list ++ [make_exclude pattern include_]

/-- The function `add_exclude`: `add_exclude_list` on the process-wide list. -/
def add_exclude (pattern : List Char) (include_ : Bool)
    (exclude_list : List exclude_struct) : List exclude_struct :=
  add_exclude_list pattern exclude_list include_

/-! ## The wire codec -/

/-- Modelled from the spec: the channel primitives `write_int`, `write_buf`,
`read_int` and `read_sbuf` are in `io.c`, outside `exclude.c`. The
specification leaves the byte framing of an integer to them and fixes the
shape `entry := length:int text:bytes[length]`; a channel is therefore a
sequence of items, each one integer written by `write_int` or one byte
written by `write_buf`. -/
inductive io_item where
  | int (v : Int)
  | byte (c : Char)
  deriving DecidableEq, Repr

/-- The ways the codec ends the process. -/
inductive exit_reason where
  /-- The call `exit_cleanup(RERR_UNSUPPORTED)` of `send_exclude_list`. -/
  | RERR_UNSUPPORTED
  /-- The call `overflow("recv_exclude_list")`. -/
  | overflow
  /-- The channel ended, or held no integer where one is read. -/
  | stream_io
  deriving DecidableEq, Repr

/-- What `write_int(f, v)` puts on the channel. -/
def write_int (v : Int) : List io_item := [io_item.int v]

/-- What `write_buf(f, buf, len)` puts on the channel. -/
def write_buf (buf : List Char) (len : Nat) : List io_item :=
  (buf.take len).map io_item.byte

/-- The text `send_exclude_list` builds in its buffer `pattern` for a rule
(lines 343-344). -/
def send_text (MAXPATHLEN : Nat) (ex : exclude_struct) : List Char :=
  let pattern := strlcpy ex.pattern MAXPATHLEN
  if ex.directory then strlcat pattern ['/'] MAXPATHLEN else pattern

/-- The loop of `send_exclude_list` and the final `write_int(f,0)`: the items
written, and the reason of the exit when the loop aborts. -/
def send_loop (MAXPATHLEN : Nat) (remote_version : Int) :
    List exclude_struct → List io_item × Option exit_reason
  | [] => (write_int 0, none)
  | ex :: rest =>
    let pattern := send_text MAXPATHLEN ex
    let l := pattern.length
    if l = 0 then send_loop MAXPATHLEN remote_version rest
    else if ex.include_ then
      if remote_version < 19 then ([], some exit_reason.RERR_UNSUPPORTED)
      else
        let r := send_loop MAXPATHLEN remote_version rest
        (write_int (l + 2) ++ write_buf ['+', ' '] 2 ++ write_buf pattern l ++ r.1, r.2)
    else
      let r := send_loop MAXPATHLEN remote_version rest
      (write_int l ++ write_buf pattern l ++ r.1, r.2)

/-- The outcome of `send_exclude_list`. -/
structure send_result where
  /-- The process-wide list after the call. -/
  exclude_list : List exclude_struct
  /-- The items written to the channel, in order. -/
  out : List io_item
  /-- The reason of the exit, none when the function returns. -/
  exit : Option exit_reason
  deriving DecidableEq, Repr

/-- The function `send_exclude_list`; `remote_version`, `list_only` and
`recurse` are the globals it reads, `MAXPATHLEN` the size of its buffer. -/
def send_exclude_list (MAXPATHLEN : Nat) (remote_version : Int)
    (list_only recurse : Bool) (exclude_list : List exclude_struct) : send_result :=
  let exclude_list :=
    if list_only ∧ recurse = false then add_exclude ['/', '*', '/', '*'] false exclude_list
    else exclude_list
  let r := send_loop MAXPATHLEN remote_version exclude_list
  { exclude_list := exclude_list, out := r.1, exit := r.2 }

/-- What `read_int(f)` returns and what it leaves on the channel. -/
def read_int : List io_item → Option (Int × List io_item)
  | io_item.int v :: rest => some (v, rest)
  | _ => none

/-- The `len` bytes `read_sbuf(f, buf, len)` takes from the channel, and what
it leaves there. -/
def read_sbuf : Nat → List io_item → Option (List Char × List io_item)
  | 0, s => some ([], s)
  | len + 1, io_item.byte c :: s =>
    (read_sbuf len s).map (fun r => (c :: r.1, r.2))
  | _ + 1, _ => none

/-- The C string held by a buffer: its characters before the first NUL. -/
def c_string (buf : List Char) : List Char :=
  buf.takeWhile (fun c => c != Char.ofNat 0)

/-- The outcome of `recv_exclude_list`. -/
structure recv_result where
  /-- The process-wide list after the call. -/
  exclude_list : List exclude_struct
  /-- The reason of the exit, none when the function returns. -/
  exit : Option exit_reason
  deriving DecidableEq, Repr

/-- The loop of `recv_exclude_list`, bounded by `fuel` iterations. The
length is held in an `unsigned int`, hence the reduction modulo 2^32. -/
def recv_loop (MAXPATHLEN : Nat) :
    Nat → List io_item → List exclude_struct → recv_result
  | 0, _, exclude_list => { exclude_list := exclude_list, exit := some exit_reason.stream_io }
  | fuel + 1, f, exclude_list =>
    match read_int f with
    | none => { exclude_list := exclude_list, exit := some exit_reason.stream_io }
    | some (v, f1) =>
      let l : Nat := (v % 4294967296).toNat
      if l = 0 then { exclude_list := exclude_list, exit := none }
      else if l ≥ MAXPATHLEN then
        { exclude_list := exclude_list, exit := some exit_reason.overflow }
      else
        match read_sbuf l f1 with
        | none => { exclude_list := exclude_list, exit := some exit_reason.stream_io }
        | some (line, f2) =>
          recv_loop MAXPATHLEN fuel f2 (add_exclude (c_string line) false exclude_list)

/-- The function `recv_exclude_list` reading the channel `f`. Every
iteration takes an item off the channel, so its length bounds the number of
iterations. -/
def recv_exclude_list (MAXPATHLEN : Nat) (f : List io_item)
    (exclude_list : List exclude_struct) : recv_result :=
  recv_loop MAXPATHLEN (f.length + 1) f exclude_list

/-- The entries of a list of rules when each is written as an exclude
entry, a length and that many bytes of text, the rules with an empty text
left out: what precedes the terminator in the message of a list of exclude
rules. -/
def exclude_entries (MAXPATHLEN : Nat) : List exclude_struct → List io_item
  | [] => []
  | ex :: rest =>
    if send_text MAXPATHLEN ex = [] then exclude_entries MAXPATHLEN rest
    else
      write_int (send_text MAXPATHLEN ex).length ++
        write_buf (send_text MAXPATHLEN ex) (send_text MAXPATHLEN ex).length ++
        exclude_entries MAXPATHLEN rest

/-- The triple of a rule the round trip is about. -/
def rule_triple (ex : exclude_struct) : List Char × Bool × Bool :=
  (ex.pattern, ex.directory, ex.include_)

/-- The value an `unsigned int` takes when the `int` `v` is assigned to it,
as in `l = read_int(f)`. -/
def as_unsigned (v : Int) : Nat := (v % 4294967296).toNat

/-- One entry as it lies on the channel: the length `e.1` that `read_int`
returns and the bytes `e.2` that follow it. -/
def entry_items (e : Int × List Char) : List io_item :=
  io_item.int e.1 :: e.2.map io_item.byte

/-- The entries of a message, one after the other. -/
def message_items : List (Int × List Char) → List io_item
  | [] => []
  | e :: es => entry_items e ++ message_items es

/-! ## The tokens of a line -/

/-- C `isspace` in the C locale: space, tab, newline, vertical tab, form
feed and carriage return. -/
def isspace (c : Char) : Bool :=
  c == ' ' || c == '\t' || c == '\n' || c == Char.ofNat 11 || c == Char.ofNat 12 ||
    c == '\r'

/-- The static variables `s` and `more` of `get_exclude_tok`. -/
structure tok_state where
  s : List Char
  more : Bool
  deriving DecidableEq, Repr

/-- The function `get_exclude_tok`: `p` is its argument, none for NULL, and
`st` the static variables before the call; the result is the token returned,
none for NULL, and the static variables after the call. The token is the
text from `t` to the character the function overwrites with NUL, or to the
end of the string. -/
def get_exclude_tok (p : Option (List Char)) (st : tok_state) :
    Option (List Char) × tok_state :=
  let st1 : tok_state :=
    match p with
    | some q => { s := q, more := if q = [] then st.more else true }
    | none => st
  if st1.more = false then (none, st1)
  else
    let s := st1.s.dropWhile isspace
    if s = [] then (none, { s := s, more := false })
    else
      let mark : Bool := (s.head? = some '+' ∨ s.head? = some '-') ∧ s.get? 1 = some ' '
      let s2 := if mark then s.drop 2 else s
      let t := (if mark then s.take 2 else []) ++ s2.takeWhile (fun c => !isspace c)
      let s3 := s2.dropWhile (fun c => !isspace c)
      if s3 = [] then (some t, { s := s3, more := false })
      else (some t, { s := s3.drop 1, more := true })

/-- The loop of `add_exclude_line` and `add_include_line`, bounded by `fuel`
iterations: `tok` is the token at hand, `st` the static variables of
`get_exclude_tok`, and `include_` the polarity the tokens are added with. -/
def add_line_loop (include_ : Bool) :
    Nat → Option (List Char) → tok_state → List exclude_struct →
      List exclude_struct × tok_state
  | 0, _, st, exclude_list => (exclude_list, st)
  | _ + 1, none, st, exclude_list => (exclude_list, st)
  | fuel + 1, some tok, st, exclude_list =>
    let r := get_exclude_tok none st
    add_line_loop include_ fuel r.1 r.2 (add_exclude tok include_ exclude_list)

/-- The function `add_exclude_line`; `p` is none for NULL. Every token
takes a character of the line, so its length plus one bounds the number of
iterations. -/
def add_exclude_line (p : Option (List Char)) (st : tok_state)
    (exclude_list : List exclude_struct) : List exclude_struct × tok_state :=
  match p with
  | none => (exclude_list, st)
  | some q =>
    if q = [] then (exclude_list, st)
    else
      let r := get_exclude_tok (some q) st
      add_line_loop false (q.length + 1) r.1 r.2 exclude_list

/-- The function `add_include_line`; `p` is none for NULL. -/
def add_include_line (p : Option (List Char)) (st : tok_state)
    (exclude_list : List exclude_struct) : List exclude_struct × tok_state :=
  match p with
  | none => (exclude_list, st)
  | some q =>
    if q = [] then (exclude_list, st)
    else
      let r := get_exclude_tok (some q) st
      add_line_loop true (q.length + 1) r.1 r.2 exclude_list

/-- The token that starts at the head of `s`, as the specification words it:
a `+` or `-` immediately followed by a space, and everything up to the next
whitespace or the end of the line; otherwise everything up to the next
whitespace or the end of the line. -/
def token_at (s : List Char) : List Char :=
  if (s.head? = some '+' ∨ s.head? = some '-') ∧ s.get? 1 = some ' ' then
    s.take 2 ++ (s.drop 2).takeWhile (fun c => !isspace c)
  else s.takeWhile (fun c => !isspace c)

/-- The tokens of a line, as the specification words them: whitespace is
skipped, the token at the next character is taken, and so on with the text
after the token; `fuel` bounds the number of characters looked at. -/
def tokens_from : Nat → List Char → List (List Char)
  | 0, _ => []
  | _ + 1, [] => []
  | fuel + 1, c :: s =>
    if isspace c then tokens_from fuel s
    else token_at (c :: s) :: tokens_from fuel ((c :: s).drop (token_at (c :: s)).length)

/-- The tokens of a line, from left to right. -/
def line_tokens (line : List Char) : List (List Char) :=
  tokens_from (line.length + 1) line

/-- The whitespace-separated words of a line. -/
def line_words (line : List Char) : List (List Char) :=
  (line.splitOnP isspace).filter (fun w => !w.isEmpty)

/-! ## Rule files -/

/-- What `make_exclude_list` does with a line once it is read (lines
297-303): the buffer holds a C string, which is added unless it is empty or
starts with `;` or `#`. -/
def add_file_line (line : List Char) (list : List exclude_struct) (include_ : Bool) :
    List exclude_struct :=
  if c_string line ≠ [] ∧ (c_string line).head? ≠ some ';' ∧
      (c_string line).head? ≠ some '#' then
    add_exclude_list (c_string line) list include_
  else list

/-- The loops of `make_exclude_list` (lines 283-306) over the bytes `read`
still has to deliver: `line` is the buffer filled so far, which takes at most
`MAXPATHLEN - 1` bytes, and a read that fails ends the file as its end
does. -/
def read_lines (MAXPATHLEN : Nat) (eol_nulls include_ : Bool) :
    List Char → List Char → List exclude_struct → List exclude_struct
  | [], line, list => add_file_line line list include_
  | ch :: rest, line, list =>
    if (if eol_nulls then ch = Char.ofNat 0 else (ch = '\n' ∨ ch = '\r')) then
      read_lines MAXPATHLEN eol_nulls include_ rest [] (add_file_line line list include_)
    else
      read_lines MAXPATHLEN eol_nulls include_ rest
        (if line.length < MAXPATHLEN - 1 then line ++ [ch] else line) list

/-- The function `make_exclude_list`: `file` is the content `open` gives
access to, none when it fails; the result is the list returned, none when
the process exits through `exit_cleanup(RERR_FILEIO)`. -/
def make_exclude_list (MAXPATHLEN : Nat) (eol_nulls : Bool) (file : Option (List Char))
    (list1 : List exclude_struct) (fatal include_ : Bool) : Option (List exclude_struct) :=
  match file with
  | none => if fatal then none else some list1
  | some content => some (read_lines MAXPATHLEN eol_nulls include_ content [] list1)

/-- The lines of a rule file as the specification words them: the content
split at every `\n` or `\r`, each line cut to its first `MAXPATHLEN - 1`
bytes, the lines that are empty or start with `;` or `#` left out. -/
def file_lines (MAXPATHLEN : Nat) (content : List Char) : List (List Char) :=
  ((content.splitOnP (fun c => c == '\n' || c == '\r')).map
      (fun l => l.take (MAXPATHLEN - 1))).filter
    (fun l => !l.isEmpty && l.head? != some ';' && l.head? != some '#')

/-! # Theorems -/

/-! ## Lemmas on the library functions -/

theorem strrchr_none_of_not_mem (s : List Char) (c : Char) (h : c ∉ s) :
    strrchr s c = none := by
  induction s with
  | nil => rfl
  | cons x s ih =>
    have hx : ¬ x = c := fun e => h (by simp [e])
    have hs : c ∉ s := fun e => h (by simp [e])
    simp [strrchr, ih hs, hx]

theorem not_mem_of_strrchr_none (s : List Char) (c : Char) (h : strrchr s c = none) :
    c ∉ s := by
  induction s with
  | nil => simp
  | cons x s ih =>
    cases hs : strrchr s c with
    | some r => simp [strrchr, hs] at h
    | none =>
      simp [strrchr, hs] at h
      have := ih hs
      simp [this]
      exact fun e => h e.symm

theorem strrchr_append_of_not_mem (d b : List Char) (c : Char) (h : c ∉ b) :
    strrchr (d ++ c :: b) c = some (c :: b) := by
  induction d with
  | nil => simp [strrchr, strrchr_none_of_not_mem b c h]
  | cons x d ih => simp [strrchr, ih]

theorem strrchr_some_split (s : List Char) (c : Char) (p : List Char)
    (h : strrchr s c = some p) :
    ∃ d b, s = d ++ c :: b ∧ p = c :: b ∧ c ∉ b := by
  induction s generalizing p with
  | nil => simp [strrchr] at h
  | cons x s ih =>
    cases hs : strrchr s c with
    | some r =>
      obtain ⟨d, b, h1, h2, h3⟩ := ih r hs
      simp [strrchr, hs] at h
      exact ⟨x :: d, b, by simp [h1], by rw [← h, h2], h3⟩
    | none =>
      simp [strrchr, hs] at h
      obtain ⟨hx, hp⟩ := h
      exact ⟨[], s, by simp [hx], by simp [← hp, hx], not_mem_of_strrchr_none s c hs⟩

/-! ## The list evaluator -/

theorem check_list_append (fm : List Char → List Char → Nat → Nat) (name : List Char)
    (isdir : Bool) (G L : List exclude_struct) :
    check_list fm name isdir (G ++ L) =
      match check_list fm name isdir G with
      | some r => some r
      | none => check_list fm name isdir L := by
  induction G with
  | nil => simp [check_list]
  | cons g G ih =>
    by_cases h : check_one_exclude fm name g isdir = true
    · simp [check_list, h]
    · simp [check_list, h, ih]

theorem check_exclude_eq_check_list (fm : List Char → List Char → Nat → Nat)
    (name : List Char) (isdir : Bool) (G L : List exclude_struct) (h : name ≠ ['.']) :
    check_exclude fm name G L isdir = (check_list fm name isdir (G ++ L)).getD false := by
  rw [check_list_append]
  unfold check_exclude
  rw [if_neg h]
  cases check_list fm name isdir G with
  | some r => rfl
  | none =>
    cases check_list fm name isdir L with
    | some r => rfl
    | none => rfl

theorem check_list_first (fm : List Char → List Char → Nat → Nat) (name : List Char)
    (isdir : Bool) (pre post : List exclude_struct) (r : exclude_struct)
    (hpre : ∀ x ∈ pre, check_one_exclude fm name x isdir = false)
    (hr : check_one_exclude fm name r isdir = true) :
    check_list fm name isdir (pre ++ r :: post) = some (!r.include_) := by
  induction pre with
  | nil => simp [check_list, hr]
  | cons g pre ih =>
    have hg : check_one_exclude fm name g isdir = false := hpre g (by simp)
    simp only [List.cons_append, check_list, hg]
    exact ih (fun x hx => hpre x (by simp [hx]))

theorem check_list_none (fm : List Char → List Char → Nat → Nat) (name : List Char)
    (isdir : Bool) (l : List exclude_struct)
    (h : ∀ x ∈ l, check_one_exclude fm name x isdir = false) :
    check_list fm name isdir l = none := by
  induction l with
  | nil => rfl
  | cons g l ih =>
    have hg : check_one_exclude fm name g isdir = false := h g (by simp)
    simp only [check_list, hg]
    exact ih (fun x hx => h x (by simp [hx]))

/-- C1: on a path other than `.`, `check_exclude` returns the negation of
the include flag of the first rule, in the order global list then local list,
that `check_one_exclude` matches, whatever rules follow it, and returns
false (not excluded) when no rule of either list matches. -/
theorem check_exclude_first_match (fm : List Char → List Char → Nat → Nat)
    (G L : List exclude_struct) (isdir : Bool) (P : List Char) (hP : P ≠ ['.']) :
    (∀ (pre post : List exclude_struct) (r : exclude_struct),
        G ++ L = pre ++ r :: post →
        (∀ x ∈ pre, check_one_exclude fm P x isdir = false) →
        check_one_exclude fm P r isdir = true →
        check_exclude fm P G L isdir = !r.include_) ∧
    ((∀ x ∈ G ++ L, check_one_exclude fm P x isdir = false) →
        check_exclude fm P G L isdir = false) := by
  constructor
  · intro pre post r hsplit hpre hr
    rw [check_exclude_eq_check_list fm P isdir G L hP, hsplit,
      check_list_first fm P isdir pre post r hpre hr]
    rfl
  · intro hall
    rw [check_exclude_eq_check_list fm P isdir G L hP,
      check_list_none fm P isdir (G ++ L) hall]
    rfl

/-- C1, the scenario of the rules `+ *.keep`, `- *`: `a.keep` is not
excluded, by the first rule, and `a.tmp` is excluded, by the second. -/
theorem check_exclude_first_match_witness :
    check_exclude fnmatch "a.keep".toList
        [make_exclude "+ *.keep".toList false, make_exclude "- *".toList false] [] false
      = false ∧
    check_exclude fnmatch "a.tmp".toList
        [make_exclude "+ *.keep".toList false] [make_exclude "- *".toList false] false
      = true := by
  constructor
  · exact (check_exclude_first_match fnmatch _ [] false "a.keep".toList (by decide)).1
      [] [make_exclude "- *".toList false] (make_exclude "+ *.keep".toList false)
      (by rfl) (by simp) (by decide)
  · exact (check_exclude_first_match fnmatch _ _ false "a.tmp".toList (by decide)).1
      [make_exclude "+ *.keep".toList false] [] (make_exclude "- *".toList false)
      (by rfl) (by decide) (by decide)

/-- C2: `check_exclude` returns false (not excluded) on the path `.` for
every global list, local list and directory flag; so it does with the
exclude rule `*`, which by itself matches the name `.`. -/
theorem check_exclude_dot (fm : List Char → List Char → Nat → Nat)
    (G L : List exclude_struct) (isdir : Bool) :
    check_exclude fm ['.'] G L isdir = false ∧
    check_one_exclude fnmatch ['.'] (make_exclude ['*'] false) isdir = true ∧
    check_exclude fnmatch ['.'] [make_exclude ['*'] false] L isdir = false ∧
    check_exclude fnmatch ['.'] G [make_exclude ['*'] false] isdir = false := by
  refine ⟨by simp [check_exclude], ?_, by simp [check_exclude], by simp [check_exclude]⟩
  cases isdir <;> decide

/-! ## The single-rule matcher -/

theorem star_match_of_tail (k : List Char → Bool) (a b : List Char) (h : k b = true) :
    star_match k false (a ++ b) = true := by
  induction a with
  | nil => cases b <;> simp [star_match, h]
  | cons x a ih => simp [star_match, ih]

theorem fnmatch_fuel_star (fuel : Nat) (p n : List Char) (pn : Bool) :
    fnmatch_fuel (fuel + 1) ('*' :: p) n pn =
      star_match (fun t => fnmatch_fuel fuel p t pn) pn n := by
  rfl

theorem check_exclude_global_single (fm : List Char → List Char → Nat → Nat)
    (name : List Char) (ex : exclude_struct) (isdir : Bool) (hdot : name ≠ ['.'])
    (h : check_one_exclude fm name ex isdir = true) :
    check_exclude fm name [ex] [] isdir = !ex.include_ := by
  simp [check_exclude, hdot, check_list, h]

theorem check_exclude_local_single (fm : List Char → List Char → Nat → Nat)
    (name : List Char) (ex : exclude_struct) (isdir : Bool) (hdot : name ≠ ['.'])
    (h : check_one_exclude fm name ex isdir = true) :
    check_exclude fm name [] [ex] isdir = !ex.include_ := by
  simp [check_exclude, hdot, check_list, h]

theorem fnmatch_double_star_bar (dir : List Char) :
    fnmatch ['*', '*', '/', 'b', 'a', 'r'] (dir ++ ['/', 'b', 'a', 'r']) 0 = 0 := by
  have h1 : star_match (fun t => fnmatch_fuel 5 ['/', 'b', 'a', 'r'] t false) false
      (dir ++ ['/', 'b', 'a', 'r']) = true :=
    star_match_of_tail _ dir _ (by decide)
  have h2 : star_match (fun t => star_match
      (fun u => fnmatch_fuel 5 ['/', 'b', 'a', 'r'] u false) false t) false
      ([] ++ (dir ++ ['/', 'b', 'a', 'r'])) = true :=
    star_match_of_tail _ [] (dir ++ ['/', 'b', 'a', 'r']) h1
  have h3 : fnmatch_fuel 7 ['*', '*', '/', 'b', 'a', 'r'] (dir ++ ['/', 'b', 'a', 'r']) false
      = true := by
    simp only [fnmatch_fuel_star]
    exact h2
  have h5 : ((0 : Nat) &&& FNM_PATHNAME != 0) = false := by decide
  unfold fnmatch
  simp only [List.length_cons, List.length_nil, h5]
  rw [h3]
  rfl

/-- C4: a list holding only the exclude rule compiled from `**/bar`, as
the global or as the local list, excludes every path that ends in `/bar`,
`x/y/bar` among them, and the path `bar` itself, whatever the directory
flag. -/
theorem double_star_bar_excludes (isdir : Bool) (dir : List Char) :
    check_exclude fnmatch (dir ++ "/bar".toList) [make_exclude "**/bar".toList false] [] isdir
      = true ∧
    check_exclude fnmatch (dir ++ "/bar".toList) [] [make_exclude "**/bar".toList false] isdir
      = true ∧
    check_exclude fnmatch "x/y/bar".toList [make_exclude "**/bar".toList false] [] isdir
      = true ∧
    check_exclude fnmatch "x/y/bar".toList [] [make_exclude "**/bar".toList false] isdir
      = true ∧
    check_exclude fnmatch "bar".toList [make_exclude "**/bar".toList false] [] isdir = true ∧
    check_exclude fnmatch "bar".toList [] [make_exclude "**/bar".toList false] isdir = true := by
  have hrule : make_exclude "**/bar".toList false =
      { pattern := ['*', '*', '/', 'b', 'a', 'r'], match_flags := 7, include_ := false,
        directory := false, slash_cnt := 1 } := by decide
  have hstr : "/bar".toList = ['/', 'b', 'a', 'r'] := by decide
  have hne : dir ++ ['/', 'b', 'a', 'r'] ≠ [] := by simp
  have hdot : dir ++ ['/', 'b', 'a', 'r'] ≠ ['.'] := by
    intro h
    have := congrArg List.length h
    simp at this
  have hone : check_one_exclude fnmatch (dir ++ ['/', 'b', 'a', 'r'])
      { pattern := ['*', '*', '/', 'b', 'a', 'r'], match_flags := 7, include_ := false,
        directory := false, slash_cnt := 1 } isdir = true := by
    simp [check_one_exclude, MATCHFLG_WILD2, MATCHFLG_WILD, hne, fnmatch_double_star_bar dir]
  refine ⟨?_, ?_, ?_, ?_, ?_, ?_⟩
  · rw [hrule, hstr, check_exclude_global_single fnmatch _ _ isdir hdot hone]
    rfl
  · rw [hrule, hstr, check_exclude_local_single fnmatch _ _ isdir hdot hone]
    rfl
  · cases isdir <;> decide
  · cases isdir <;> decide
  · cases isdir <;> decide
  · cases isdir <;> decide

theorem check_one_exclude_star_bar (fm : List Char → List Char → Nat → Nat) (isdir : Bool) :
    check_one_exclude fm "x/y/bar".toList (make_exclude "*/bar".toList false) isdir
      = decide (fm "*/bar".toList "y/bar".toList FNM_PATHNAME = 0) := by
  have hrule : make_exclude "*/bar".toList false =
      { pattern := "*/bar".toList, match_flags := 1, include_ := false,
        directory := false, slash_cnt := 1 } := by decide
  rw [hrule]
  unfold check_one_exclude
  simp [MATCHFLG_WILD, MATCHFLG_WILD2, MATCHFLG_WILD2_PREFIX, last_elements]

theorem check_one_exclude_anchored_star_bar (fm : List Char → List Char → Nat → Nat)
    (isdir : Bool) :
    check_one_exclude fm "x/y/bar".toList (make_exclude "/*/bar".toList false) isdir
      = decide (fm "*/bar".toList "x/y/bar".toList FNM_PATHNAME = 0) := by
  have hrule : make_exclude "/*/bar".toList false =
      { pattern := "/*/bar".toList, match_flags := 1, include_ := false,
        directory := false, slash_cnt := 2 } := by decide
  rw [hrule]
  unfold check_one_exclude
  simp [MATCHFLG_WILD, MATCHFLG_WILD2, MATCHFLG_WILD2_PREFIX]

/-- C5, as the code has it: the exclude rule compiled from `*/bar` does
exclude the path `x/y/bar`, for either directory flag, because an unanchored
rule with one slash and no double-star is matched against the last two path
elements: `fnmatch` is called on `y/bar`, which `*/bar` matches. The single
star still does not cross a `/`: the anchored rule `/*/bar` has `fnmatch`
called on the whole of `x/y/bar`, which `*/bar` does not match under
`FNM_PATHNAME`, and does not exclude the path. -/
theorem single_star_bar_last_elements (fm : List Char → List Char → Nat → Nat)
    (isdir : Bool)
    (h1 : fm "*/bar".toList "y/bar".toList FNM_PATHNAME = 0)
    (h2 : fm "*/bar".toList "x/y/bar".toList FNM_PATHNAME ≠ 0) :
    check_exclude fm "x/y/bar".toList [make_exclude "*/bar".toList false] [] isdir = true ∧
    check_exclude fm "x/y/bar".toList [] [make_exclude "*/bar".toList false] isdir = true ∧
    check_exclude fm "x/y/bar".toList [make_exclude "/*/bar".toList false] [] isdir = false ∧
    check_exclude fm "x/y/bar".toList [] [make_exclude "/*/bar".toList false] isdir = false := by
  have hdot : "x/y/bar".toList ≠ ['.'] := by decide
  have e1 : check_one_exclude fm "x/y/bar".toList (make_exclude "*/bar".toList false) isdir
      = true := by
    rw [check_one_exclude_star_bar, h1]
    rfl
  have e2 : check_one_exclude fm "x/y/bar".toList (make_exclude "/*/bar".toList false) isdir
      = false := by
    rw [check_one_exclude_anchored_star_bar]
    exact decide_eq_false h2
  refine ⟨?_, ?_, ?_, ?_⟩
  · rw [check_exclude_global_single fm _ _ isdir hdot e1]
    rfl
  · rw [check_exclude_local_single fm _ _ isdir hdot e1]
    rfl
  · unfold check_exclude
    rw [if_neg hdot]
    simp only [check_list, e2, Bool.false_eq_true, if_false]
  · unfold check_exclude
    rw [if_neg hdot]
    simp only [check_list, e2, Bool.false_eq_true, if_false]

/-- C5 with the model of `fnmatch`: `*/bar` matches `y/bar` and not
`x/y/bar` under `FNM_PATHNAME`, so the rule `*/bar` excludes the file
`x/y/bar` and the rule `/*/bar` does not. -/
theorem single_star_bar_last_elements_witness :
    check_exclude fnmatch "x/y/bar".toList [make_exclude "*/bar".toList false] [] false
      = true ∧
    check_exclude fnmatch "x/y/bar".toList [] [make_exclude "*/bar".toList false] false
      = true ∧
    check_exclude fnmatch "x/y/bar".toList [make_exclude "/*/bar".toList false] [] false
      = false ∧
    check_exclude fnmatch "x/y/bar".toList [] [make_exclude "/*/bar".toList false] false
      = false :=
  single_star_bar_last_elements fnmatch false (by decide) (by decide)

/-- C5, the claim as stated fails: the list holding only the exclude rule
`*/bar` excludes `x/y/bar`, as a file and as a directory. -/
theorem single_star_bar_counterexample :
    check_exclude fnmatch "x/y/bar".toList [make_exclude "*/bar".toList false] [] false
      = true ∧
    check_exclude fnmatch "x/y/bar".toList [make_exclude "*/bar".toList false] [] true
      = true := by
  decide

/-- C6: a rule with `directory` set never matches a candidate that is not
a directory, whatever the path and the rest of the rule. -/
theorem check_one_exclude_directory_gate (fm : List Char → List Char → Nat → Nat)
    (name : List Char) (ex : exclude_struct) (h : ex.directory = true) :
    check_one_exclude fm name ex false = false := by
  unfold check_one_exclude
  simp [h]

/-- C6, the scenario of the rule `/tmp/`: it is a directory-only rule, it
excludes the path `tmp` when that is a directory and not when it is not. -/
theorem check_one_exclude_directory_gate_witness :
    (make_exclude "/tmp/".toList false).directory = true ∧
    check_one_exclude fnmatch "tmp".toList (make_exclude "/tmp/".toList false) false = false ∧
    check_exclude fnmatch "tmp".toList [make_exclude "/tmp/".toList false] [] true = true ∧
    check_exclude fnmatch "tmp".toList [make_exclude "/tmp/".toList false] [] false = false :=
  ⟨by decide,
   check_one_exclude_directory_gate fnmatch "tmp".toList
     (make_exclude "/tmp/".toList false) (by decide),
   by decide, by decide⟩

/-- C7: for a rule with no slash and no double-star, matching a path that
contains a `/` is matching its final component, the text `base` after its
last `/`. -/
theorem check_one_exclude_name_only (fm : List Char → List Char → Nat → Nat)
    (ex : exclude_struct) (isdir : Bool) (dir base : List Char)
    (h0 : ex.slash_cnt = 0) (h2 : ex.match_flags &&& MATCHFLG_WILD2 = 0)
    (hb : '/' ∉ base) :
    check_one_exclude fm (dir ++ '/' :: base) ex isdir = check_one_exclude fm base ex isdir := by
  unfold check_one_exclude
  simp only [h0, h2, and_self, if_true, strrchr_append_of_not_mem dir base '/' hb,
    strrchr_none_of_not_mem base '/' hb, List.drop_one, List.tail_cons]

/-- C7, the scenario of the rule `*.o`: it has no slash and no double-star,
and it excludes the file `src/util.o` as it matches the name `util.o`. -/
theorem check_one_exclude_name_only_witness :
    check_one_exclude fnmatch "src/util.o".toList (make_exclude "*.o".toList false) false
      = check_one_exclude fnmatch "util.o".toList (make_exclude "*.o".toList false) false ∧
    check_one_exclude fnmatch "util.o".toList (make_exclude "*.o".toList false) false = true ∧
    check_exclude fnmatch "src/util.o".toList [make_exclude "*.o".toList false] [] false
      = true :=
  ⟨check_one_exclude_name_only fnmatch (make_exclude "*.o".toList false) false
     "src".toList "util.o".toList (by decide) (by decide) (by decide),
   by decide, by decide⟩

theorem suffix_test_iff (name pattern : List Char) :
    (decide (pattern.length ≤ name.length) &&
        name.drop (name.length - pattern.length) == pattern &&
        (decide (name.length = pattern.length) ||
          name.get? (name.length - (pattern.length + 1)) == some '/')) = true ↔
      (name = pattern ∨ ('/' :: pattern) <:+ name) := by
  constructor
  · intro h
    simp only [Bool.and_eq_true, Bool.or_eq_true, decide_eq_true_eq, beq_iff_eq] at h
    obtain ⟨⟨hle, hdrop⟩, hlast⟩ := h
    by_cases heq : name.length = pattern.length
    · left
      rw [heq, Nat.sub_self, List.drop_zero] at hdrop
      exact hdrop
    · right
      have hsl := hlast.resolve_left heq
      rw [List.get?_eq_getElem?] at hsl
      have hlt : name.length - (pattern.length + 1) < name.length := by
        by_contra hc
        rw [List.getElem?_eq_none (Nat.le_of_not_lt hc)] at hsl
        exact absurd hsl (by simp)
      have hk : name.length - (pattern.length + 1) + 1 = name.length - pattern.length := by
        omega
      refine ⟨name.take (name.length - (pattern.length + 1)), ?_⟩
      have h1 := List.getElem?_eq_getElem hlt
      rw [hsl] at h1
      have h2 : name.drop (name.length - (pattern.length + 1)) = '/' :: pattern := by
        rw [List.drop_eq_getElem_cons hlt, hk, hdrop]
        congr 1
        exact (Option.some.inj h1).symm
      rw [← h2, List.take_append_drop]
  · intro h
    rcases h with h | ⟨t, ht⟩
    · subst h
      simp
    · subst ht
      simp only [List.length_append, List.length_cons, Bool.and_eq_true, Bool.or_eq_true,
        decide_eq_true_eq, beq_iff_eq]
      refine ⟨⟨by omega, ?_⟩, Or.inr ?_⟩
      · have : t.length + (pattern.length + 1) - pattern.length = t.length + 1 := by omega
        rw [this, show t ++ '/' :: pattern = (t ++ ['/']) ++ pattern by simp]
        rw [List.drop_left' (by simp)]
      · have : t.length + (pattern.length + 1) - (pattern.length + 1) = t.length := by omega
        rw [this, List.get?_eq_getElem?, List.getElem?_append_right (Nat.le_refl _)]
        simp

theorem slash_suffix_iff_of_not_mem (pattern d b : List Char)
    (hp : '/' ∉ pattern) (hb : '/' ∉ b) :
    ('/' :: pattern) <:+ (d ++ '/' :: b) ↔ pattern = b := by
  constructor
  · rintro ⟨t, ht⟩
    have h1 := strrchr_append_of_not_mem t pattern '/' hp
    have h2 := strrchr_append_of_not_mem d b '/' hb
    rw [ht, h2] at h1
    simpa using h1.symm
  · intro h
    subst h
    exact ⟨d, rfl⟩

theorem make_exclude_flags_cases (raw : List Char) (inc : Bool) :
    (make_exclude raw inc).match_flags = 0 ∨ (make_exclude raw inc).match_flags = 1 ∨
    (make_exclude raw inc).match_flags = 3 ∨ (make_exclude raw inc).match_flags = 7 := by
  simp only [make_exclude]
  split
  · split
    · split
      · right; right; right; decide
      · right; right; left; decide
    · right; left; decide
  · left; rfl

theorem make_exclude_slash_cnt (raw : List Char) (inc : Bool) :
    (make_exclude raw inc).slash_cnt = (make_exclude raw inc).pattern.count '/' := rfl

theorem make_exclude_not_wild2 (raw : List Char) (inc : Bool)
    (hw : (make_exclude raw inc).match_flags &&& MATCHFLG_WILD = 0) :
    (make_exclude raw inc).match_flags &&& MATCHFLG_WILD2 = 0 := by
  rcases make_exclude_flags_cases raw inc with h | h | h | h <;> rw [h] at hw ⊢ <;>
    first | decide | exact absurd hw (by decide)

theorem check_one_exclude_plain (fm : List Char → List Char → Nat → Nat)
    (ex : exclude_struct) (name : List Char) (isdir : Bool)
    (hw : ex.match_flags &&& MATCHFLG_WILD = 0)
    (hp : ex.pattern.head? ≠ some '/')
    (hd : ex.directory = true → isdir = true) (nm : List Char)
    (hnm : nm = if ex.slash_cnt = 0 ∧ ex.match_flags &&& MATCHFLG_WILD2 = 0 then
        (match strrchr name '/' with
          | some p => p.drop 1
          | none => name)
      else name) :
    check_one_exclude fm name ex isdir =
      (if nm = [] then false
       else (decide (ex.pattern.length ≤ nm.length) &&
        nm.drop (nm.length - ex.pattern.length) == ex.pattern &&
        (decide (nm.length = ex.pattern.length) ||
          nm.get? (nm.length - (ex.pattern.length + 1)) == some '/'))) := by
  have hgate : ¬ (ex.directory = true ∧ isdir = false) := by
    rintro ⟨h1, h2⟩
    rw [hd h1] at h2
    exact absurd h2 (by decide)
  unfold check_one_exclude
  simp only [← hnm, hgate, hw, hp, if_false, decide_False, Bool.false_eq_true, false_and,
    ne_eq, not_true_eq_false]

theorem check_one_exclude_suffix_of_count (fm : List Char → List Char → Nat → Nat)
    (ex : exclude_struct) (name : List Char) (isdir : Bool)
    (hsl : ex.slash_cnt = ex.pattern.count '/')
    (hw : ex.match_flags &&& MATCHFLG_WILD = 0)
    (hw2 : ex.match_flags &&& MATCHFLG_WILD2 = 0)
    (hp : ex.pattern.head? ≠ some '/')
    (hn : name ≠ [])
    (hd : ex.directory = true → isdir = true) :
    check_one_exclude fm name ex isdir = true ↔
      (ex.pattern ≠ [] ∧ (name = ex.pattern ∨ ('/' :: ex.pattern) <:+ name)) := by
  rw [check_one_exclude_plain fm ex name isdir hw hp hd _ rfl]
  by_cases h0 : ex.slash_cnt = 0
  · have hns : '/' ∉ ex.pattern := by
      rw [hsl] at h0
      exact List.count_eq_zero.mp h0
    simp only [h0, hw2, and_self, if_true]
    cases hs : strrchr name '/' with
    | none =>
      have hnn : '/' ∉ name := not_mem_of_strrchr_none name '/' hs
      simp only [hn, if_false]
      rw [suffix_test_iff]
      have hno : ¬ ('/' :: ex.pattern) <:+ name := by
        rintro ⟨t, ht⟩
        exact hnn (by rw [← ht]; simp)
      constructor
      · intro h
        rcases h with h | h
        · exact ⟨by rw [← h]; exact hn, Or.inl h⟩
        · exact absurd h hno
      · intro h
        exact h.2
    | some p =>
      obtain ⟨d, b, h1, h2, h3⟩ := strrchr_some_split name '/' p hs
      subst h1
      subst h2
      simp only [List.drop_one, List.tail_cons]
      have hne : ¬ (d ++ '/' :: b = ex.pattern) := by
        intro h
        exact hns (by rw [← h]; simp)
      rw [slash_suffix_iff_of_not_mem ex.pattern d b hns h3]
      by_cases hb : b = []
      · simp only [hb, if_true]
        constructor
        · intro h
          exact absurd h (by decide)
        · rintro ⟨h4, h5⟩
          rcases h5 with h5 | h5
          · exact absurd h5 (by rw [hb] at hne; exact hne)
          · exact absurd h5 h4
      · simp only [hb, if_false]
        rw [suffix_test_iff]
        have hno : ¬ ('/' :: ex.pattern) <:+ b := by
          rintro ⟨t, ht⟩
          exact h3 (by rw [← ht]; simp)
        constructor
        · intro h
          rcases h with h | h
          · exact ⟨by rw [← h]; exact hb, Or.inr h.symm⟩
          · exact absurd h hno
        · rintro ⟨_, h5⟩
          rcases h5 with h5 | h5
          · exact absurd h5 hne
          · exact Or.inl h5.symm
  · have hpne : ex.pattern ≠ [] := by
      intro h
      rw [hsl, h] at h0
      exact h0 rfl
    simp only [h0, false_and, if_false, hn]
    rw [suffix_test_iff]
    constructor
    · intro h
      exact ⟨hpne, h⟩
    · intro h
      exact h.2

/-- C8: for a rule compiled by `make_exclude` that has no wildcard and
whose pattern does not start with `/`, a non-empty path and a directory flag
that passes the directory gate, `check_one_exclude` returns true exactly
when the pattern is non-empty and the path is the pattern or ends with `/`
followed by the pattern. -/
theorem check_one_exclude_suffix (fm : List Char → List Char → Nat → Nat)
    (raw : List Char) (inc : Bool) (name : List Char) (isdir : Bool)
    (hw : (make_exclude raw inc).match_flags &&& MATCHFLG_WILD = 0)
    (hp : (make_exclude raw inc).pattern.head? ≠ some '/')
    (hn : name ≠ [])
    (hd : (make_exclude raw inc).directory = true → isdir = true) :
    check_one_exclude fm name (make_exclude raw inc) isdir = true ↔
      ((make_exclude raw inc).pattern ≠ [] ∧
        (name = (make_exclude raw inc).pattern ∨
          ('/' :: (make_exclude raw inc).pattern) <:+ name)) :=
  check_one_exclude_suffix_of_count fm (make_exclude raw inc) name isdir
    (make_exclude_slash_cnt raw inc) hw (make_exclude_not_wild2 raw inc hw) hp hn hd

/-- C8 at concrete inputs: the rule `b/c` matches `a/b/c` and `b/c`, not
`ab/c`, whose tail `b/c` does not start at a segment boundary. -/
theorem check_one_exclude_suffix_witness :
    check_one_exclude fnmatch "a/b/c".toList (make_exclude "b/c".toList false) false = true ∧
    check_one_exclude fnmatch "b/c".toList (make_exclude "b/c".toList false) false = true ∧
    check_one_exclude fnmatch "ab/c".toList (make_exclude "b/c".toList false) false = false :=
  ⟨(check_one_exclude_suffix fnmatch "b/c".toList false "a/b/c".toList false
      (by decide) (by decide) (by decide) (by decide)).2
      ⟨by decide, Or.inr ⟨['a'], by decide⟩⟩,
   (check_one_exclude_suffix fnmatch "b/c".toList false "b/c".toList false
      (by decide) (by decide) (by decide) (by decide)).2
      ⟨by decide, Or.inl (by decide)⟩,
   by decide⟩

theorem check_one_exclude_anchored_of_count (fm : List Char → List Char → Nat → Nat)
    (ex : exclude_struct) (name : List Char) (isdir : Bool)
    (hsl : ex.slash_cnt = ex.pattern.count '/')
    (hw : ex.match_flags &&& MATCHFLG_WILD = 0)
    (hp : ex.pattern.head? = some '/')
    (hn : name ≠ [])
    (hd : ex.directory = true → isdir = true) :
    check_one_exclude fm name ex isdir = true ↔
      (if name.head? = some '/' then name.drop 1 else name) = ex.pattern.drop 1 := by
  have hgate : ¬ (ex.directory = true ∧ isdir = false) := by
    rintro ⟨h1, h2⟩
    rw [hd h1] at h2
    exact absurd h2 (by decide)
  have h0 : ex.slash_cnt ≠ 0 := by
    rw [hsl]
    intro h
    have hns : '/' ∉ ex.pattern := List.count_eq_zero.mp h
    cases hpat : ex.pattern with
    | nil => rw [hpat] at hp; simp at hp
    | cons x s =>
      rw [hpat] at hp hns
      simp at hp
      exact hns (by simp [hp])
  unfold check_one_exclude
  simp only [h0, false_and, if_false, hn, hgate, hw, hp, ne_eq, not_true_eq_false,
    decide_True, if_true, true_and, beq_iff_eq]

/-- C9: for a rule compiled by `make_exclude` that has no wildcard and
whose pattern starts with `/`, a non-empty path and a directory flag that
passes the directory gate, `check_one_exclude` returns true exactly when the
path, one leading `/` removed if it has one, is the pattern without its
leading `/`. -/
theorem check_one_exclude_anchored (fm : List Char → List Char → Nat → Nat)
    (raw : List Char) (inc : Bool) (name : List Char) (isdir : Bool)
    (hw : (make_exclude raw inc).match_flags &&& MATCHFLG_WILD = 0)
    (hp : (make_exclude raw inc).pattern.head? = some '/')
    (hn : name ≠ [])
    (hd : (make_exclude raw inc).directory = true → isdir = true) :
    check_one_exclude fm name (make_exclude raw inc) isdir = true ↔
      (if name.head? = some '/' then name.drop 1 else name) =
        (make_exclude raw inc).pattern.drop 1 :=
  check_one_exclude_anchored_of_count fm (make_exclude raw inc) name isdir
    (make_exclude_slash_cnt raw inc) hw hp hn hd

/-- C9 at concrete inputs: the rule `/foo` matches `foo` and `/foo` and does
not match `bar/foo`. -/
theorem check_one_exclude_anchored_witness :
    check_one_exclude fnmatch "foo".toList (make_exclude "/foo".toList false) false = true ∧
    check_one_exclude fnmatch "/foo".toList (make_exclude "/foo".toList false) false = true ∧
    check_one_exclude fnmatch "bar/foo".toList (make_exclude "/foo".toList false) false
      = false :=
  ⟨(check_one_exclude_anchored fnmatch "/foo".toList false "foo".toList false
      (by decide) (by decide) (by decide) (by decide)).2 (by decide),
   (check_one_exclude_anchored fnmatch "/foo".toList false "/foo".toList false
      (by decide) (by decide) (by decide) (by decide)).2 (by decide),
   by
    have h := (check_one_exclude_anchored fnmatch "/foo".toList false "bar/foo".toList false
      (by decide) (by decide) (by decide) (by decide)).not.2 (by decide)
    simpa using h⟩

/-! ## The wire codec -/

theorem exists_first_split {α : Type} (p : α → Prop) (l : List α) (h : ∃ x ∈ l, p x) :
    ∃ pre x post, l = pre ++ x :: post ∧ (∀ y ∈ pre, ¬ p y) ∧ p x := by
  induction l with
  | nil => simp at h
  | cons a l ih =>
    by_cases ha : p a
    · exact ⟨[], a, l, rfl, by simp, ha⟩
    · have h2 : ∃ x ∈ l, p x := by
        obtain ⟨x, hx, hpx⟩ := h
        rcases List.mem_cons.mp hx with e | e
        · exact absurd (e ▸ hpx) ha
        · exact ⟨x, e, hpx⟩
      obtain ⟨pre, x, post, e, hpre, hx⟩ := ih h2
      refine ⟨a :: pre, x, post, by simp [e], ?_, hx⟩
      intro y hy
      rcases List.mem_cons.mp hy with e2 | e2
      · exact e2 ▸ ha
      · exact hpre y e2

theorem send_loop_old_abort (M : Nat) (rv : Int) (hv : rv < 19)
    (pre post : List exclude_struct) (ex : exclude_struct)
    (hpre : ∀ y ∈ pre, ¬ (y.include_ = true ∧ send_text M y ≠ []))
    (hi : ex.include_ = true) (ht : send_text M ex ≠ []) :
    send_loop M rv (pre ++ ex :: post) =
      (exclude_entries M pre, some exit_reason.RERR_UNSUPPORTED) := by
  induction pre with
  | nil =>
    have hl : (send_text M ex).length ≠ 0 := fun h => ht (List.length_eq_zero.mp h)
    simp [send_loop, hl, hi, hv, exclude_entries]
  | cons a pre ih =>
    have ih2 := ih (fun y hy => hpre y (by simp [hy]))
    have ha := hpre a (by simp)
    by_cases hta : send_text M a = []
    · simp [send_loop, hta, exclude_entries, ih2]
    · have hl : (send_text M a).length ≠ 0 := fun h => hta (List.length_eq_zero.mp h)
      have hia : a.include_ = false := by
        cases h : a.include_ with
        | false => rfl
        | true => exact absurd ⟨h, hta⟩ ha
      simp [send_loop, hta, hia, exclude_entries, ih2]

theorem send_loop_all_exclude (M : Nat) (rv : Int)
    (l : List exclude_struct)
    (hl : ∀ y ∈ l, ¬ (y.include_ = true ∧ send_text M y ≠ [])) :
    send_loop M rv l = (exclude_entries M l ++ write_int 0, none) := by
  induction l with
  | nil => simp [send_loop, exclude_entries]
  | cons a l ih =>
    have ih2 := ih (fun y hy => hl y (by simp [hy]))
    have ha := hl a (by simp)
    by_cases hta : send_text M a = []
    · simp [send_loop, hta, exclude_entries, ih2]
    · have hia : a.include_ = false := by
        cases h : a.include_ with
        | false => rfl
        | true => exact absurd ⟨h, hta⟩ ha
      simp [send_loop, hta, hia, exclude_entries, ih2]

theorem exclude_entries_of_empty (M : Nat) (l : List exclude_struct)
    (h : ∀ y ∈ l, send_text M y = []) : exclude_entries M l = [] := by
  induction l with
  | nil => rfl
  | cons a l ih =>
    simp [exclude_entries, h a (by simp), ih (fun y hy => h y (by simp [hy]))]

/-- C10: with a peer version below 19, `send_exclude_list` exits with the
unsupported-feature error exactly when the list holds an include rule whose
transmitted text is non-empty, and returns otherwise; when it exits, what it
has written is the exclude entries of the rules before the first such rule
and nothing for that rule or after it, so nothing at all when every rule
before it has an empty text. -/
theorem send_exclude_list_old_peer (M : Nat) (rv : Int) (list_only recurse : Bool)
    (list : List exclude_struct) (hv : rv < 19) :
    ((send_exclude_list M rv list_only recurse list).exit =
        some exit_reason.RERR_UNSUPPORTED ↔
      ∃ ex ∈ list, ex.include_ = true ∧ send_text M ex ≠ []) ∧
    ((send_exclude_list M rv list_only recurse list).exit = none ↔
      ¬ ∃ ex ∈ list, ex.include_ = true ∧ send_text M ex ≠ []) ∧
    (∀ (pre post : List exclude_struct) (ex : exclude_struct),
      list = pre ++ ex :: post →
      (∀ y ∈ pre, ¬ (y.include_ = true ∧ send_text M y ≠ [])) →
      ex.include_ = true → send_text M ex ≠ [] →
      (send_exclude_list M rv list_only recurse list).out = exclude_entries M pre) ∧
    (∀ (pre post : List exclude_struct) (ex : exclude_struct),
      list = pre ++ ex :: post →
      (∀ y ∈ pre, send_text M y = []) →
      ex.include_ = true → send_text M ex ≠ [] →
      (send_exclude_list M rv list_only recurse list).out = []) := by
  have hsplit : ∀ (pre post : List exclude_struct) (ex : exclude_struct),
      list = pre ++ ex :: post →
      (∀ y ∈ pre, ¬ (y.include_ = true ∧ send_text M y ≠ [])) →
      ex.include_ = true → send_text M ex ≠ [] →
      (send_exclude_list M rv list_only recurse list).out = exclude_entries M pre ∧
      (send_exclude_list M rv list_only recurse list).exit =
        some exit_reason.RERR_UNSUPPORTED := by
    intro pre post ex e hpre hi ht
    unfold send_exclude_list
    by_cases hh : list_only = true ∧ recurse = false
    · have e2 : add_exclude ['/', '*', '/', '*'] false list =
          pre ++ ex :: (post ++ [make_exclude ['/', '*', '/', '*'] false]) := by
        simp [add_exclude, add_exclude_list, e]
      simp only [hh, and_self, if_true, e2, send_loop_old_abort M rv hv pre _ ex hpre hi ht]
    · simp only [hh, if_false, e, send_loop_old_abort M rv hv pre _ ex hpre hi ht, and_self]
  have hnone : (¬ ∃ ex ∈ list, ex.include_ = true ∧ send_text M ex ≠ []) →
      (send_exclude_list M rv list_only recurse list).exit = none := by
    intro hno
    have hall : ∀ y ∈ list, ¬ (y.include_ = true ∧ send_text M y ≠ []) :=
      fun y hy hc => hno ⟨y, hy, hc⟩
    unfold send_exclude_list
    by_cases hh : list_only = true ∧ recurse = false
    · have e2 : add_exclude ['/', '*', '/', '*'] false list =
          list ++ [make_exclude ['/', '*', '/', '*'] false] := by
        simp [add_exclude, add_exclude_list]
      have hall2 : ∀ y ∈ list ++ [make_exclude ['/', '*', '/', '*'] false],
          ¬ (y.include_ = true ∧ send_text M y ≠ []) := by
        intro y hy
        rcases List.mem_append.mp hy with h1 | h1
        · exact hall y h1
        · rw [List.mem_singleton.mp h1]
          intro hc
          exact absurd hc.1 (by decide)
      simp only [hh, and_self, if_true, e2, send_loop_all_exclude M rv _ hall2]
    · simp only [hh, if_false, send_loop_all_exclude M rv _ hall]
  have habort : (∃ ex ∈ list, ex.include_ = true ∧ send_text M ex ≠ []) →
      (send_exclude_list M rv list_only recurse list).exit =
        some exit_reason.RERR_UNSUPPORTED := by
    intro hex
    obtain ⟨pre, x, post, e, hpre, hx⟩ :=
      exists_first_split (fun ex => ex.include_ = true ∧ send_text M ex ≠ []) list hex
    exact (hsplit pre post x e hpre hx.1 hx.2).2
  refine ⟨⟨?_, habort⟩, ⟨?_, hnone⟩, ?_, ?_⟩
  · intro h
    by_contra hno
    rw [hnone hno] at h
    exact absurd h (by decide)
  · intro h hex
    rw [habort hex] at h
    exact absurd h (by decide)
  · intro pre post ex e hpre hi ht
    exact (hsplit pre post ex e hpre hi ht).1
  · intro pre post ex e hpre hi ht
    rw [(hsplit pre post ex e (fun y hy hc => hc.2 (hpre y hy)) hi ht).1]
    exact exclude_entries_of_empty M pre hpre

/-- C10, the scenario of the list holding the one include rule `foo`, sent
to a peer of version 18: the exit is the unsupported-feature error and
nothing has been written. -/
theorem send_exclude_list_old_peer_witness :
    make_exclude "+ foo".toList false =
      { pattern := "foo".toList, match_flags := 0, include_ := true, directory := false,
        slash_cnt := 0 } ∧
    (send_exclude_list 1024 18 false false [make_exclude "+ foo".toList false]).exit =
      some exit_reason.RERR_UNSUPPORTED ∧
    (send_exclude_list 1024 18 false false [make_exclude "+ foo".toList false]).out = [] :=
  ⟨by decide,
   (send_exclude_list_old_peer 1024 18 false false [make_exclude "+ foo".toList false]
      (by decide)).1.2 ⟨make_exclude "+ foo".toList false, by simp, by decide, by decide⟩,
   (send_exclude_list_old_peer 1024 18 false false [make_exclude "+ foo".toList false]
      (by decide)).2.2.2 [] [] (make_exclude "+ foo".toList false) rfl (by simp)
      (by decide) (by decide)⟩

theorem strncmp_eq_cons2 (a b : Char) (t : List Char) (x y : Char) :
    strncmp_eq (a :: b :: t) [x, y] 2 = (decide (a = x) && decide (b = y)) := by
  simp [strncmp_eq]
  by_cases h1 : a = x <;> by_cases h2 : b = y <;> simp [h1, h2]

theorem strncmp_eq_iff_starts (s : List Char) (x y : Char) :
    strncmp_eq s [x, y] 2 = true ↔ [x, y] <+: s := by
  match s with
  | [] => simp [strncmp_eq]
  | [a] => simp [strncmp_eq]
  | a :: b :: t =>
    rw [strncmp_eq_cons2]
    simp only [List.cons_prefix_cons, Bool.and_eq_true, decide_eq_true_eq, List.nil_prefix,
      and_true]
    constructor <;> rintro ⟨h1, h2⟩ <;> exact ⟨h1.symm, h2.symm⟩

theorem make_exclude_congr (a b : List Char) (d1 d2 : Bool)
    (h1 : skip_marker a = skip_marker b)
    (h2 : (make_exclude a d1).include_ = (make_exclude b d2).include_) :
    make_exclude a d1 = make_exclude b d2 := by
  simp only [make_exclude] at h2 ⊢
  rw [h1, h2]

theorem send_text_eq_skip_marker (M : Nat) (raw : List Char) (d : Bool)
    (hlen : (make_exclude raw d).pattern.length +
      (if (make_exclude raw d).directory = true then 1 else 0) < M) :
    send_text M (make_exclude raw d) = skip_marker raw := by
  simp only [make_exclude] at hlen
  simp only [make_exclude, send_text, strlcpy, strlcat]
  by_cases hdir : (decide ((skip_marker raw).length > 1) &&
      (skip_marker raw).getLast? == some '/') = true
  · simp only [hdir, if_true] at hlen ⊢
    have hl : (skip_marker raw).getLast? = some '/' := by
      simp only [Bool.and_eq_true, beq_iff_eq] at hdir
      exact hdir.2
    rw [List.take_of_length_le (by omega)]
    have h1 : M - 1 - (skip_marker raw).dropLast.length = Nat.succ (M - 2 - (skip_marker raw).dropLast.length) := by
      omega
    rw [h1, List.take_succ_cons, List.take_nil]
    exact List.dropLast_append_getLast? '/' (by simp [hl])
  · simp only [hdir, Bool.false_eq_true, if_false] at hlen ⊢
    exact List.take_of_length_le (by omega)

theorem read_sbuf_bytes (bytes : List Char) (rest : List io_item) :
    read_sbuf bytes.length (bytes.map io_item.byte ++ rest) = some (bytes, rest) := by
  induction bytes with
  | nil => simp [read_sbuf]
  | cons c bytes ih => simp [read_sbuf, ih]

theorem c_string_of_no_nul (t : List Char) (h : Char.ofNat 0 ∉ t) : c_string t = t := by
  unfold c_string
  rw [List.takeWhile_eq_self_iff]
  intro x hx
  simp only [bne_iff_ne, ne_eq]
  intro e
  exact h (e ▸ hx)

theorem skip_marker_suffix (raw : List Char) : skip_marker raw <:+ raw := by
  unfold skip_marker
  split
  · exact List.drop_suffix 2 raw
  · split
    · exact List.drop_suffix 2 raw
    · exact List.suffix_refl raw

theorem write_buf_all (t : List Char) : write_buf t t.length = t.map io_item.byte := by
  simp [write_buf]

theorem recv_loop_entry (M : Nat) (hM : M ≤ 2147483648) (fuel : Nat) (bytes : List Char)
    (rest : List io_item) (acc : List exclude_struct)
    (hne : bytes ≠ []) (hlt : bytes.length < M) (hnul : Char.ofNat 0 ∉ bytes)
    (hbang : bytes ≠ ['!']) :
    recv_loop M (fuel + 1) (io_item.int bytes.length :: (bytes.map io_item.byte ++ rest)) acc =
      recv_loop M fuel rest (acc ++ [make_exclude bytes false]) := by
  have hl : ((bytes.length : Int) % 4294967296).toNat = bytes.length := by omega
  have h0 : bytes.length ≠ 0 := fun h => hne (List.length_eq_zero.mp h)
  have hge : ¬ bytes.length ≥ M := by omega
  rw [recv_loop]
  simp only [read_int, hl, h0, hge, if_false, read_sbuf_bytes, c_string_of_no_nul bytes hnul,
    add_exclude, add_exclude_list, hbang]

theorem skip_marker_of_no_marker (t : List Char)
    (h1 : strncmp_eq t ['-', ' '] 2 = false) (h2 : strncmp_eq t ['+', ' '] 2 = false) :
    skip_marker t = t := by
  unfold skip_marker
  simp only [h1, h2, Bool.false_eq_true, if_false]

theorem send_loop_entry (M : Nat) (rv : Int) (hv : 19 ≤ rv) (raw : List Char) (d : Bool)
    (rest : List exclude_struct)
    (hnul : Char.ofNat 0 ∉ raw)
    (hne : send_text M (make_exclude raw d) ≠ [])
    (hlen : (make_exclude raw d).pattern.length +
      (if (make_exclude raw d).directory = true then 1 else 0) +
      (if (make_exclude raw d).include_ = true then 2 else 0) < M)
    (hex : (make_exclude raw d).include_ = false →
      ¬ ['+', ' '] <+: send_text M (make_exclude raw d) ∧
      ¬ ['-', ' '] <+: send_text M (make_exclude raw d) ∧
      send_text M (make_exclude raw d) ≠ ['!']) :
    ∃ bytes : List Char,
      send_loop M rv (make_exclude raw d :: rest) =
        (io_item.int bytes.length :: (bytes.map io_item.byte ++ (send_loop M rv rest).1),
          (send_loop M rv rest).2) ∧
      bytes ≠ [] ∧ bytes.length < M ∧ Char.ofNat 0 ∉ bytes ∧ bytes ≠ ['!'] ∧
      make_exclude bytes false = make_exclude raw d := by
  have ht : send_text M (make_exclude raw d) = skip_marker raw :=
    send_text_eq_skip_marker M raw d (by omega)
  have hplen : (make_exclude raw d).pattern.length +
      (if (make_exclude raw d).directory = true then 1 else 0) =
      (skip_marker raw).length := by
    simp only [make_exclude]
    by_cases hdir : (decide ((skip_marker raw).length > 1) &&
        (skip_marker raw).getLast? == some '/') = true
    · simp only [hdir, if_true, List.length_dropLast]
      simp only [Bool.and_eq_true, decide_eq_true_eq] at hdir
      omega
    · simp only [hdir, Bool.false_eq_true, if_false, Nat.add_zero]
  have hl0 : (skip_marker raw).length ≠ 0 := by
    rw [← ht]
    exact fun h => hne (List.length_eq_zero.mp h)
  have hnul2 : Char.ofNat 0 ∉ skip_marker raw :=
    fun h => hnul ((skip_marker_suffix raw).subset h)
  cases hinc : (make_exclude raw d).include_ with
  | false =>
    obtain ⟨hp, hm, hb⟩ := hex hinc
    rw [ht] at hp hm hb hne
    rw [hinc] at hlen
    refine ⟨skip_marker raw, ?_, hne, by simp at hlen; omega, hnul2, hb, ?_⟩
    · rw [send_loop]
      simp only [ht, hl0, hinc, if_false, Bool.false_eq_true, write_int, write_buf_all,
        List.singleton_append, List.cons_append, List.nil_append, List.append_assoc]
    · apply make_exclude_congr
      · have h1 : strncmp_eq (skip_marker raw) ['-', ' '] 2 = false := by
          rw [← Bool.not_eq_true, strncmp_eq_iff_starts]
          exact hm
        have h2 : strncmp_eq (skip_marker raw) ['+', ' '] 2 = false := by
          rw [← Bool.not_eq_true, strncmp_eq_iff_starts]
          exact hp
        exact skip_marker_of_no_marker _ h1 h2
      · rw [hinc]
        have h1 : strncmp_eq (skip_marker raw) ['-', ' '] 2 = false := by
          rw [← Bool.not_eq_true, strncmp_eq_iff_starts]
          exact hm
        have h2 : strncmp_eq (skip_marker raw) ['+', ' '] 2 = false := by
          rw [← Bool.not_eq_true, strncmp_eq_iff_starts]
          exact hp
        simp only [make_exclude, h1, h2, Bool.false_eq_true, if_false]
  | true =>
    rw [hinc] at hlen
    have hrv : ¬ rv < 19 := by omega
    refine ⟨'+' :: ' ' :: skip_marker raw, ?_, by simp, by simp at hlen ⊢; omega, ?_, by simp, ?_⟩
    · rw [send_loop]
      simp only [ht, hl0, hinc, hrv, if_false, if_true, write_int, write_buf_all, write_buf,
        List.singleton_append, List.cons_append, List.nil_append, List.append_assoc,
        List.length_cons, List.map_cons, List.take_succ_cons, List.take_zero, List.map_nil,
        Nat.cast_add, Nat.cast_ofNat, Nat.cast_succ, Nat.cast_one]
      simp only [add_assoc]
      norm_num
    · intro h
      rcases List.mem_cons.mp h with e | e
      · exact absurd e (by decide)
      · rcases List.mem_cons.mp e with e2 | e2
        · exact absurd e2 (by decide)
        · exact hnul2 e2
    · apply make_exclude_congr
      · simp [skip_marker, strncmp_eq]
      · rw [hinc]
        simp [make_exclude, strncmp_eq]

theorem send_recv_loop (M : Nat) (hM : M ≤ 2147483648) (rv : Int) (hv : 19 ≤ rv)
    (raws : List (List Char × Bool))
    (hr : ∀ x ∈ raws,
      Char.ofNat 0 ∉ x.1 ∧
      send_text M (make_exclude x.1 x.2) ≠ [] ∧
      (make_exclude x.1 x.2).pattern.length +
        (if (make_exclude x.1 x.2).directory = true then 1 else 0) +
        (if (make_exclude x.1 x.2).include_ = true then 2 else 0) < M ∧
      ((make_exclude x.1 x.2).include_ = false →
        ¬ ['+', ' '] <+: send_text M (make_exclude x.1 x.2) ∧
        ¬ ['-', ' '] <+: send_text M (make_exclude x.1 x.2) ∧
        send_text M (make_exclude x.1 x.2) ≠ ['!'])) :
    (send_loop M rv (raws.map (fun x => make_exclude x.1 x.2))).2 = none ∧
    raws.length < (send_loop M rv (raws.map (fun x => make_exclude x.1 x.2))).1.length ∧
    ∀ (fuel : Nat) (acc : List exclude_struct), raws.length < fuel →
      recv_loop M fuel (send_loop M rv (raws.map (fun x => make_exclude x.1 x.2))).1 acc =
        { exclude_list := acc ++ raws.map (fun x => make_exclude x.1 x.2), exit := none } := by
  induction raws with
  | nil =>
    refine ⟨rfl, by simp [send_loop, write_int], ?_⟩
    intro fuel acc hf
    obtain ⟨k, rfl⟩ : ∃ k, fuel = k + 1 := ⟨fuel - 1, by omega⟩
    simp [send_loop, write_int, recv_loop, read_int]
  | cons x raws ih =>
    obtain ⟨ih1, ih2, ih3⟩ := ih (fun y hy => hr y (by simp [hy]))
    obtain ⟨hnul, hne, hlen, hex⟩ := hr x (by simp)
    obtain ⟨bytes, hs, hb1, hb2, hb3, hb4, hb5⟩ :=
      send_loop_entry M rv hv x.1 x.2 (raws.map (fun x => make_exclude x.1 x.2))
        hnul hne hlen hex
    rw [List.map_cons, hs]
    refine ⟨ih1, by simp only [List.length_cons, List.length_append, List.length_map]; omega, ?_⟩
    intro fuel acc hf
    obtain ⟨k, rfl⟩ : ∃ k, fuel = k + 1 := ⟨fuel - 1, by simp at hf; omega⟩
    rw [recv_loop_entry M hM k bytes _ acc hb1 hb2 hb3 hb4, hb5,
      ih3 k _ (by simp at hf; omega)]
    simp

/-- C3, as the code has it: take a list of rules compiled by `make_exclude`
from raw C strings in which every rule has a non-empty transmitted text
(pattern, plus `/` when directory-only) that fits the buffer of `MAXPATHLEN`
bytes (a C `int`, so at most 2^31) together with the two bytes of an include
marker, and in which the
transmitted text of an exclude rule neither starts with `+ ` or `- ` nor is
`!`. Sent to a peer of version 19 or more without the `list_only` hack, the
list is written without an exit and left as it is, and `recv_exclude_list`
on the message, starting from the empty list, returns with the same sequence
of (pattern, directory, include) triples. -/
theorem send_recv_round_trip (M : Nat) (rv : Int) (list_only recurse : Bool)
    (raws : List (List Char × Bool))
    (hM : M ≤ 2147483648) (hv : 19 ≤ rv) (hh : ¬ (list_only = true ∧ recurse = false))
    (hr : ∀ x ∈ raws,
      Char.ofNat 0 ∉ x.1 ∧
      send_text M (make_exclude x.1 x.2) ≠ [] ∧
      (make_exclude x.1 x.2).pattern.length +
        (if (make_exclude x.1 x.2).directory = true then 1 else 0) +
        (if (make_exclude x.1 x.2).include_ = true then 2 else 0) < M ∧
      ((make_exclude x.1 x.2).include_ = false →
        ¬ ['+', ' '] <+: send_text M (make_exclude x.1 x.2) ∧
        ¬ ['-', ' '] <+: send_text M (make_exclude x.1 x.2) ∧
        send_text M (make_exclude x.1 x.2) ≠ ['!'])) :
    (send_exclude_list M rv list_only recurse
        (raws.map (fun x => make_exclude x.1 x.2))).exit = none ∧
    (send_exclude_list M rv list_only recurse
        (raws.map (fun x => make_exclude x.1 x.2))).exclude_list =
      raws.map (fun x => make_exclude x.1 x.2) ∧
    (recv_exclude_list M (send_exclude_list M rv list_only recurse
        (raws.map (fun x => make_exclude x.1 x.2))).out []).exit = none ∧
    (recv_exclude_list M (send_exclude_list M rv list_only recurse
        (raws.map (fun x => make_exclude x.1 x.2))).out []).exclude_list.map rule_triple =
      (raws.map (fun x => make_exclude x.1 x.2)).map rule_triple := by
  obtain ⟨h1, h2, h3⟩ := send_recv_loop M hM rv hv raws hr
  have hs : send_exclude_list M rv list_only recurse
      (raws.map (fun x => make_exclude x.1 x.2)) =
      { exclude_list := raws.map (fun x => make_exclude x.1 x.2),
        out := (send_loop M rv (raws.map (fun x => make_exclude x.1 x.2))).1,
        exit := (send_loop M rv (raws.map (fun x => make_exclude x.1 x.2))).2 } := by
    unfold send_exclude_list
    simp only [hh, if_false]
  rw [hs]
  simp only [recv_exclude_list]
  rw [h3 _ [] (by omega)]
  refine ⟨h1, ?_, ?_, ?_⟩ <;> simp

/-- C3 at a concrete list: the rules compiled from `+ src/`, `*.o` and
`/tmp/` travel to a peer of version 26 and come back with the same
triples. -/
theorem send_recv_round_trip_witness :
    (recv_exclude_list 1024 (send_exclude_list 1024 26 false false
        [make_exclude "+ src/".toList false, make_exclude "*.o".toList false,
          make_exclude "/tmp/".toList false]).out []).exclude_list.map rule_triple =
      [("src".toList, true, true), ("*.o".toList, false, false),
        ("/tmp".toList, true, false)] :=
  (send_recv_round_trip 1024 26 false false
    [("+ src/".toList, false), ("*.o".toList, false), ("/tmp/".toList, false)]
    (by decide) (by decide) (by decide) (by decide)).2.2.2

/-- C3, the claim as stated fails: the rule compiled from the empty
pattern is skipped by `send_exclude_list`, so the list decoded from the
message is empty; and the exclude rule of pattern `+ foo`, compiled from
`- + foo`, is decoded as the include rule of pattern `foo`. -/
theorem send_recv_round_trip_counterexample :
    (send_exclude_list 1024 26 false false [make_exclude [] false]).exit = none ∧
    (recv_exclude_list 1024
        (send_exclude_list 1024 26 false false [make_exclude [] false]).out []).exit = none ∧
    (recv_exclude_list 1024
        (send_exclude_list 1024 26 false false [make_exclude [] false]).out
        []).exclude_list.map rule_triple = [] ∧
    [make_exclude [] false].map rule_triple = [([], false, false)] ∧
    [make_exclude "- + foo".toList false].map rule_triple = [("+ foo".toList, false, false)] ∧
    (recv_exclude_list 1024
        (send_exclude_list 1024 26 false false [make_exclude "- + foo".toList false]).out
        []).exclude_list.map rule_triple = [("foo".toList, false, true)] := by
  decide

/-! ## The pattern compiler -/

theorem skip_marker_eq (s : List Char) :
    skip_marker s = if ['-', ' '] <+: s ∨ ['+', ' '] <+: s then s.drop 2 else s := by
  unfold skip_marker
  by_cases h1 : strncmp_eq s ['-', ' '] 2 = true
  · have := (strncmp_eq_iff_starts s '-' ' ').1 h1
    simp [h1, this]
  · have hn1 : ¬ ['-', ' '] <+: s := fun h => h1 ((strncmp_eq_iff_starts s '-' ' ').2 h)
    by_cases h2 : strncmp_eq s ['+', ' '] 2 = true
    · have := (strncmp_eq_iff_starts s '+' ' ').1 h2
      simp [h1, h2, this]
    · have hn2 : ¬ ['+', ' '] <+: s := fun h => h2 ((strncmp_eq_iff_starts s '+' ' ').2 h)
      simp [h1, h2, hn1, hn2]

theorem make_exclude_pattern_eq (s : List Char) (d : Bool) :
    (make_exclude s d).pattern =
      if 1 < (skip_marker s).length ∧ (skip_marker s).getLast? = some '/'
      then (skip_marker s).dropLast else skip_marker s := by
  simp only [make_exclude]
  by_cases h : 1 < (skip_marker s).length ∧ (skip_marker s).getLast? = some '/'
  · simp [h]
  · rw [if_neg h]
    have : (decide ((skip_marker s).length > 1) && (skip_marker s).getLast? == some '/')
        = false := by
      rw [← Bool.not_eq_true]
      intro hc
      simp only [Bool.and_eq_true, decide_eq_true_eq, beq_iff_eq] at hc
      exact h hc
    simp [this]

theorem make_exclude_directory_eq (s : List Char) (d : Bool) :
    (make_exclude s d).directory = true ↔
      1 < (skip_marker s).length ∧ (skip_marker s).getLast? = some '/' := by
  simp [make_exclude]

/-- C12: the rule `make_exclude s d` is an exclude rule when `s` starts with
`- `, an include rule when it starts with `+ `, and has the caller's polarity
`d` otherwise; in the first two cases the marker is dropped once, and the
pattern is the rest of `s`, in the third all of `s`, without one trailing
`/` when that text is longer than one character. -/
theorem make_exclude_polarity (s : List Char) (d : Bool) :
    (['-', ' '] <+: s →
      (make_exclude s d).include_ = false ∧
      (make_exclude s d).pattern =
        if 1 < (s.drop 2).length ∧ (s.drop 2).getLast? = some '/'
        then (s.drop 2).dropLast else s.drop 2) ∧
    (['+', ' '] <+: s →
      (make_exclude s d).include_ = true ∧
      (make_exclude s d).pattern =
        if 1 < (s.drop 2).length ∧ (s.drop 2).getLast? = some '/'
        then (s.drop 2).dropLast else s.drop 2) ∧
    (¬ ['-', ' '] <+: s → ¬ ['+', ' '] <+: s →
      (make_exclude s d).include_ = d ∧
      (make_exclude s d).pattern =
        if 1 < s.length ∧ s.getLast? = some '/' then s.dropLast else s) ∧
    (make_exclude "- - foo".toList true).pattern = "- foo".toList ∧
    (make_exclude "+ + foo".toList false).pattern = "+ foo".toList := by
  refine ⟨?_, ?_, ?_, by decide, by decide⟩
  · intro h
    have h1 := (strncmp_eq_iff_starts s '-' ' ').2 h
    refine ⟨by simp [make_exclude, h1], ?_⟩
    have hsk : skip_marker s = s.drop 2 := by rw [skip_marker_eq, if_pos (Or.inl h)]
    rw [make_exclude_pattern_eq, hsk]
  · intro h
    have h2 := (strncmp_eq_iff_starts s '+' ' ').2 h
    have h1 : strncmp_eq s ['-', ' '] 2 = false := by
      rw [← Bool.not_eq_true, strncmp_eq_iff_starts]
      intro hc
      obtain ⟨a, ha⟩ := h
      obtain ⟨b, hb⟩ := hc
      rw [← ha] at hb
      simp at hb
    refine ⟨by simp [make_exclude, h1, h2], ?_⟩
    have hsk : skip_marker s = s.drop 2 := by rw [skip_marker_eq, if_pos (Or.inr h)]
    rw [make_exclude_pattern_eq, hsk]
  · intro hm hp
    have h1 : strncmp_eq s ['-', ' '] 2 = false := by
      rw [← Bool.not_eq_true, strncmp_eq_iff_starts]
      exact hm
    have h2 : strncmp_eq s ['+', ' '] 2 = false := by
      rw [← Bool.not_eq_true, strncmp_eq_iff_starts]
      exact hp
    refine ⟨by simp [make_exclude, h1, h2], ?_⟩
    have hsk : skip_marker s = s := by
      rw [skip_marker_eq, if_neg (fun hc => hc.elim hm hp)]
    rw [make_exclude_pattern_eq, hsk]

/-- C13: with `t` the text of the raw string after its optional `+ ` or
`- ` marker, `make_exclude` sets `directory` exactly when `t` is longer than
one character and ends in `/`, and then the pattern is `t` without its last
character; otherwise the pattern is `t`. The raw pattern `/` compiles to the
pattern `/` with `directory` false. -/
theorem make_exclude_directory (s : List Char) (d : Bool) (t : List Char)
    (ht : t = if ['-', ' '] <+: s ∨ ['+', ' '] <+: s then s.drop 2 else s) :
    ((make_exclude s d).directory = true ↔ (1 < t.length ∧ t.getLast? = some '/')) ∧
    ((make_exclude s d).directory = true → (make_exclude s d).pattern = t.dropLast) ∧
    ((make_exclude s d).directory = false → (make_exclude s d).pattern = t) ∧
    (make_exclude ['/'] d).pattern = ['/'] ∧ (make_exclude ['/'] d).directory = false := by
  rw [← skip_marker_eq] at ht
  subst ht
  refine ⟨make_exclude_directory_eq s d, ?_, ?_, by cases d <;> decide, by cases d <;> decide⟩
  · intro h
    rw [make_exclude_pattern_eq, if_pos ((make_exclude_directory_eq s d).1 h)]
  · intro h
    have hn : ¬ (1 < (skip_marker s).length ∧ (skip_marker s).getLast? = some '/') := by
      intro hc
      rw [(make_exclude_directory_eq s d).2 hc] at h
      exact absurd h (by decide)
    rw [make_exclude_pattern_eq, if_neg hn]

/-- C13 at concrete inputs: `+ src/` and `/tmp/` are directory-only with the
slash removed, `src` is not. -/
theorem make_exclude_directory_witness :
    ((make_exclude "+ src/".toList false).directory = true ∧
      (make_exclude "+ src/".toList false).pattern = "src".toList) ∧
    ((make_exclude "src".toList false).directory = false ∧
      (make_exclude "src".toList false).pattern = "src".toList) :=
  ⟨⟨((make_exclude_directory "+ src/".toList false "src/".toList (by decide)).1).2
      (by decide),
    by decide⟩,
   ⟨by decide,
    (make_exclude_directory "src".toList false "src".toList (by decide)).2.2.1
      (by decide)⟩⟩

/-! ## The list builder -/

/-- C14: for a raw pattern other than the literal `!`, `add_exclude_list`
keeps the rules of the list, in order, and adds the one rule
`make_exclude pattern default` at the end, so the length grows by one; for
the literal `!` the list becomes empty. The pattern `- !` is compiled and
appended. -/
theorem add_exclude_list_frame (pattern : List Char) (list : List exclude_struct)
    (d : Bool) :
    (pattern ≠ ['!'] →
      add_exclude_list pattern list d = list ++ [make_exclude pattern d] ∧
      (add_exclude_list pattern list d).length = list.length + 1 ∧
      (add_exclude_list pattern list d).take list.length = list ∧
      (add_exclude_list pattern list d).drop list.length = [make_exclude pattern d]) ∧
    add_exclude_list ['!'] list d = [] ∧
    add_exclude_list "- !".toList list d = list ++ [make_exclude "- !".toList d] ∧
    (make_exclude "- !".toList d).pattern = ['!'] := by
  refine ⟨?_, by simp [add_exclude_list], ?_, by cases d <;> decide⟩
  · intro h
    have e : add_exclude_list pattern list d = list ++ [make_exclude pattern d] := by
      simp [add_exclude_list, h]
    rw [e]
    simp
  · have h : "- !".toList ≠ ['!'] := by decide
    simp only [add_exclude_list, h, if_false]

theorem getLast?_eq_slash_iff_suffix (t : List Char) :
    t.getLast? = some '/' ↔ ['/'] <:+ t := by
  constructor
  · intro h
    exact ⟨t.dropLast, List.dropLast_append_getLast? '/' (by simp [h])⟩
  · rintro ⟨u, rfl⟩
    simp

/-- C17, as the code has it: with `t` the text of the raw string after its
optional marker, the pattern of the rule `make_exclude` returns ends with
`/` exactly when `t` is the one character `/` or ends in `//`; in every
other case a trailing `/` has been moved into `directory`. -/
theorem make_exclude_trailing_slash (s : List Char) (d : Bool) (t : List Char)
    (ht : t = if ['-', ' '] <+: s ∨ ['+', ' '] <+: s then s.drop 2 else s) :
    (make_exclude s d).pattern.getLast? = some '/' ↔ (t = ['/'] ∨ ['/', '/'] <:+ t) := by
  rw [← skip_marker_eq] at ht
  subst ht
  rw [make_exclude_pattern_eq]
  by_cases h : 1 < (skip_marker s).length ∧ (skip_marker s).getLast? = some '/'
  · rw [if_pos h]
    obtain ⟨u, hu⟩ := (getLast?_eq_slash_iff_suffix _).1 h.2
    rw [← hu]
    simp only [List.dropLast_concat]
    constructor
    · intro h2
      obtain ⟨v, hv⟩ := (getLast?_eq_slash_iff_suffix _).1 h2
      right
      exact ⟨v, by rw [← hv]; simp⟩
    · rintro (h2 | ⟨v, hv⟩)
      · have hu0 : u = [] := by simpa using h2
        have h1 := h.1
        rw [← hu, hu0] at h1
        simp at h1
      · have e : v ++ ['/'] = u := by
          have : (v ++ ['/']) ++ ['/'] = u ++ ['/'] := by simpa using hv
          exact List.append_cancel_right this
        rw [← e]
        simp
  · rw [if_neg h]
    constructor
    · intro h2
      left
      have hlen : ¬ 1 < (skip_marker s).length := fun hc => h ⟨hc, h2⟩
      match hm : skip_marker s with
      | [] => rw [hm] at h2; simp at h2
      | [c] => rw [hm] at h2; simp at h2; rw [h2]
      | a :: b :: r => rw [hm] at hlen; simp at hlen
    · rintro (h2 | ⟨v, hv⟩)
      · rw [h2]
        rfl
      · exfalso
        apply h
        rw [← hv]
        simp

/-- C17 at concrete inputs: the patterns compiled from `foo/`, `foo//` and
`/` are `foo`, `foo/` and `/`. -/
theorem make_exclude_trailing_slash_witness :
    ((make_exclude "foo/".toList false).pattern = "foo".toList ∧
      ¬ (make_exclude "foo/".toList false).pattern.getLast? = some '/') ∧
    (make_exclude "foo//".toList false).pattern.getLast? = some '/' :=
  ⟨⟨by decide,
    (make_exclude_trailing_slash "foo/".toList false "foo/".toList (by decide)).not.2
      (by decide)⟩,
   (make_exclude_trailing_slash "foo//".toList false "foo//".toList (by decide)).2
      (Or.inr ⟨"foo".toList, by decide⟩)⟩

/-- C17, the claim as stated fails: the raw pattern `/` compiles to the
pattern `/`, which ends with `/`, with `directory` false; and `foo//`
compiles to the pattern `foo/`. -/
theorem make_exclude_trailing_slash_counterexample :
    (make_exclude ['/'] false).pattern = ['/'] ∧
    (make_exclude ['/'] false).pattern.getLast? = some '/' ∧
    (make_exclude ['/'] false).directory = false ∧
    (make_exclude "foo//".toList false).pattern = "foo/".toList := by
  decide

/-- C18, as the code has it: the `slash_cnt` of the rule `make_exclude`
returns is the number of all `/` characters of its pattern, a leading anchor
`/` included: one more than the number of `/` after the anchor when the
pattern starts with `/`. -/
theorem make_exclude_slash_count (s : List Char) (d : Bool) :
    (make_exclude s d).slash_cnt = (make_exclude s d).pattern.count '/' ∧
    (make_exclude s d).slash_cnt =
      if (make_exclude s d).pattern.head? = some '/'
      then ((make_exclude s d).pattern.drop 1).count '/' + 1
      else (make_exclude s d).pattern.count '/' := by
  refine ⟨rfl, ?_⟩
  rw [make_exclude_slash_cnt]
  cases hp : (make_exclude s d).pattern with
  | nil => simp
  | cons c r =>
    by_cases hc : c = '/'
    · simp [hc]
    · simp [hc]

/-- C18, the claim as stated fails: the rule compiled from `/foo` has the
pattern `/foo` and `slash_cnt` 1, while no `/` follows its leading anchor. -/
theorem make_exclude_slash_count_counterexample :
    (make_exclude "/foo".toList false).pattern = "/foo".toList ∧
    (make_exclude "/foo".toList false).slash_cnt = 1 ∧
    ((make_exclude "/foo".toList false).pattern.drop 1).count '/' = 0 := by
  decide

/-! ## The single-rule matcher: the last elements of a path -/

theorem last_elements_of_few_slashes (rev : List Char) (cnt : Nat) (acc : List Char)
    (h : rev.count '/' < cnt) : last_elements rev cnt acc = rev.reverse ++ acc := by
  induction rev generalizing cnt acc with
  | nil => simp [last_elements]
  | cons c rev ih =>
    by_cases hc : c = '/'
    · subst hc
      simp only [List.count_cons_self] at h
      have h1 : ¬ cnt - 1 = 0 := by omega
      simp only [last_elements, if_true, h1, if_false]
      rw [ih (cnt - 1) ('/' :: acc) (by omega)]
      simp
    · have hcnt : (c :: rev).count '/' = rev.count '/' := by
        simp [List.count_cons, hc]
      rw [hcnt] at h
      simp only [last_elements, hc, if_false]
      rw [ih cnt (c :: acc) h]
      simp

theorem last_elements_of_split (sufrev prerev : List Char) (cnt : Nat) (acc : List Char)
    (h : sufrev.count '/' + 1 = cnt) :
    last_elements (sufrev ++ '/' :: prerev) cnt acc = sufrev.reverse ++ acc := by
  induction sufrev generalizing cnt acc with
  | nil =>
    simp only [List.count_nil, Nat.zero_add] at h
    subst h
    simp [last_elements]
  | cons c r ih =>
    by_cases hc : c = '/'
    · subst hc
      simp only [List.count_cons_self] at h
      have h1 : ¬ cnt - 1 = 0 := by omega
      simp only [List.cons_append, last_elements, if_true, h1, if_false]
      exact (ih (cnt - 1) ('/' :: acc) (by omega)).trans (by simp)
    · have hcnt : (c :: r).count '/' = r.count '/' := by
        simp [List.count_cons, hc]
      rw [hcnt] at h
      simp only [List.cons_append, last_elements, hc, if_false]
      exact (ih cnt (c :: acc) h).trans (by simp)

theorem exists_split_at_slash (name : List Char) (k : Nat) (h : k < name.count '/') :
    ∃ pre suf : List Char, name = pre ++ '/' :: suf ∧ suf.count '/' = k := by
  induction name with
  | nil => simp at h
  | cons c r ih =>
    by_cases hr : k < r.count '/'
    · obtain ⟨pre, suf, e, hc⟩ := ih hr
      exact ⟨c :: pre, suf, by rw [e]; rfl, hc⟩
    · by_cases hc : c = '/'
      · subst hc
        simp only [List.count_cons_self] at h
        exact ⟨[], r, rfl, by omega⟩
      · have hcnt : (c :: r).count '/' = r.count '/' := by
          simp [List.count_cons, hc]
        rw [hcnt] at h
        exact absurd h hr

theorem check_one_exclude_wild_segments (fm : List Char → List Char → Nat → Nat)
    (ex : exclude_struct) (name : List Char) (isdir : Bool)
    (hf : ex.match_flags = 1) (hk : ex.slash_cnt ≠ 0)
    (hp : ex.pattern.head? ≠ some '/') (hn : name ≠ [])
    (hd : ex.directory = true → isdir = true) :
    check_one_exclude fm name ex isdir =
      decide (fm ex.pattern (last_elements name.reverse (ex.slash_cnt + 1) [])
        FNM_PATHNAME = 0) := by
  have hgate : ¬ (ex.directory = true ∧ isdir = false) := by
    rintro ⟨h1, h2⟩
    rw [hd h1] at h2
    exact absurd h2 (by decide)
  have e1 : (1 : Nat) &&& MATCHFLG_WILD ≠ 0 := by decide
  have e2 : (1 : Nat) &&& MATCHFLG_WILD2 = 0 := by decide
  have e3 : (1 : Nat) &&& MATCHFLG_WILD2_PREFIX = 0 := by decide
  unfold check_one_exclude
  simp only [hf, hk, hp, hn, hgate, e1, e2, e3, false_and, if_false, ne_eq, not_true_eq_false,
    not_false_eq_true, if_true, decide_False, Bool.false_eq_true, and_self, true_and,
    and_true, decide_True]
  by_cases hm : fm ex.pattern (last_elements name.reverse (ex.slash_cnt + 1) []) FNM_PATHNAME = 0
  · simp [hm]
  · simp [hm]

/-- C19: for a rule compiled by `make_exclude` that has a wildcard, no
double-star, `slash_cnt` k > 0 and a pattern not starting with `/`, a
non-empty path and a directory flag that passes the directory gate,
`check_one_exclude` returns true exactly when `fnmatch` with `FNM_PATHNAME`
matches the pattern against the last k+1 elements of the path: the whole
path when it has at most k slashes, and otherwise the text `suf` after the
(k+1)-th `/` counted from the end, the one followed by exactly k more, which
exists when the path has more than k slashes. -/
theorem check_one_exclude_last_segments (fm : List Char → List Char → Nat → Nat)
    (raw : List Char) (inc : Bool) (name : List Char) (isdir : Bool)
    (hw : (make_exclude raw inc).match_flags &&& MATCHFLG_WILD ≠ 0)
    (hw2 : (make_exclude raw inc).match_flags &&& MATCHFLG_WILD2 = 0)
    (hk : 0 < (make_exclude raw inc).slash_cnt)
    (hp : (make_exclude raw inc).pattern.head? ≠ some '/')
    (hn : name ≠ [])
    (hd : (make_exclude raw inc).directory = true → isdir = true) :
    (name.count '/' ≤ (make_exclude raw inc).slash_cnt →
      (check_one_exclude fm name (make_exclude raw inc) isdir = true ↔
        fm (make_exclude raw inc).pattern name FNM_PATHNAME = 0)) ∧
    (∀ pre suf : List Char, name = pre ++ '/' :: suf →
      suf.count '/' = (make_exclude raw inc).slash_cnt →
      (check_one_exclude fm name (make_exclude raw inc) isdir = true ↔
        fm (make_exclude raw inc).pattern suf FNM_PATHNAME = 0)) ∧
    ((make_exclude raw inc).slash_cnt < name.count '/' →
      ∃ pre suf : List Char, name = pre ++ '/' :: suf ∧
        suf.count '/' = (make_exclude raw inc).slash_cnt) := by
  have hf : (make_exclude raw inc).match_flags = 1 := by
    rcases make_exclude_flags_cases raw inc with h | h | h | h
    · rw [h] at hw; exact absurd rfl hw
    · exact h
    · rw [h] at hw2; exact absurd hw2 (by decide)
    · rw [h] at hw2; exact absurd hw2 (by decide)
  have hmain := check_one_exclude_wild_segments fm (make_exclude raw inc) name isdir hf
    (by omega) hp hn hd
  refine ⟨?_, ?_, exists_split_at_slash name _⟩
  · intro hc
    rw [hmain, last_elements_of_few_slashes name.reverse _ []
      (by rw [List.count_reverse]; omega)]
    simp
  · intro pre suf hsplit hcnt
    have hrev : name.reverse = suf.reverse ++ '/' :: pre.reverse := by
      rw [hsplit]
      simp
    rw [hmain, hrev, last_elements_of_split suf.reverse pre.reverse _ []
      (by rw [List.count_reverse, hcnt])]
    simp

/-- C19 at concrete inputs: the rule `b*/c`, with one slash, is matched
against the last two elements `bb/c` of the path `a/bb/c`, and against the
whole of the path `bb/c`. -/
theorem check_one_exclude_last_segments_witness :
    (check_one_exclude fnmatch "a/bb/c".toList (make_exclude "b*/c".toList false) false = true ↔
      fnmatch "b*/c".toList "bb/c".toList FNM_PATHNAME = 0) ∧
    (check_one_exclude fnmatch "bb/c".toList (make_exclude "b*/c".toList false) false = true ↔
      fnmatch "b*/c".toList "bb/c".toList FNM_PATHNAME = 0) ∧
    check_one_exclude fnmatch "a/bb/c".toList (make_exclude "b*/c".toList false) false = true :=
  ⟨(check_one_exclude_last_segments fnmatch "b*/c".toList false "a/bb/c".toList false
      (by decide) (by decide) (by decide) (by decide) (by decide) (by decide)).2.1
      ['a'] "bb/c".toList (by decide) (by decide),
   (check_one_exclude_last_segments fnmatch "b*/c".toList false "bb/c".toList false
      (by decide) (by decide) (by decide) (by decide) (by decide) (by decide)).1
      (by decide),
   by decide⟩

/-! ## The wire codec: reception -/

theorem recv_loop_step (M fuel : Nat) (v : Int) (bytes : List Char) (rest : List io_item)
    (acc : List exclude_struct) (h0 : 0 < as_unsigned v) (hlt : as_unsigned v < M)
    (hlen : bytes.length = as_unsigned v) :
    recv_loop M (fuel + 1) (entry_items (v, bytes) ++ rest) acc =
      recv_loop M fuel rest (add_exclude (c_string bytes) false acc) := by
  unfold as_unsigned at h0 hlt hlen
  have hne : ¬ bytes.length = 0 := by omega
  have hge : ¬ bytes.length ≥ M := by omega
  rw [recv_loop]
  simp only [entry_items, List.cons_append, read_int, ← hlen, hne, hge, if_false,
    read_sbuf_bytes]

theorem recv_loop_entries (M : Nat) (es : List (Int × List Char)) (tail : List io_item)
    (hes : ∀ e ∈ es, 0 < as_unsigned e.1 ∧ as_unsigned e.1 < M ∧
      e.2.length = as_unsigned e.1) (fuel : Nat) (acc : List exclude_struct) :
    recv_loop M (es.length + fuel) (message_items es ++ tail) acc =
      recv_loop M fuel tail
        (es.foldl (fun l e => add_exclude (c_string e.2) false l) acc) := by
  induction es generalizing acc with
  | nil => simp [message_items]
  | cons e es ih =>
    obtain ⟨h0, hlt, hlen⟩ := hes e (by simp)
    have hf : (e :: es).length + fuel = (es.length + fuel) + 1 := by
      simp only [List.length_cons]
      omega
    rw [hf, message_items, List.append_assoc,
      recv_loop_step M _ e.1 e.2 _ acc h0 hlt hlen,
      ih (fun x hx => hes x (by simp [hx]))]
    rfl

theorem message_items_length (es : List (Int × List Char)) :
    es.length ≤ (message_items es).length := by
  induction es with
  | nil => simp
  | cons e es ih =>
    simp only [message_items, entry_items, List.length_append, List.length_cons,
      List.length_map]
    omega

/-- C11: `recv_exclude_list` takes the entries of a message one by one:
for every entry whose length l, read as unsigned, has 0 < l < MAXPATHLEN it
takes the l bytes that follow and hands that text to `add_exclude` with the
exclude polarity, so that the rule made of it is an include rule exactly
when the text starts with `+ `; it returns at a zero length, and at a length
at or above MAXPATHLEN, which every negative length is, it exits with the
overflow error, the list being what the entries before made it. -/
theorem recv_exclude_list_entries (M : Nat) (es : List (Int × List Char))
    (rest : List io_item) (acc : List exclude_struct)
    (hes : ∀ e ∈ es, 0 < as_unsigned e.1 ∧ as_unsigned e.1 < M ∧
      e.2.length = as_unsigned e.1) :
    (∀ v : Int, as_unsigned v = 0 →
      recv_exclude_list M (message_items es ++ io_item.int v :: rest) acc =
        { exclude_list := es.foldl (fun l e => add_exclude (c_string e.2) false l) acc,
          exit := none }) ∧
    (∀ v : Int, as_unsigned v ≠ 0 → M ≤ as_unsigned v →
      recv_exclude_list M (message_items es ++ io_item.int v :: rest) acc =
        { exclude_list := es.foldl (fun l e => add_exclude (c_string e.2) false l) acc,
          exit := some exit_reason.overflow }) ∧
    (∀ v : Int, v < 0 → -2147483648 ≤ v → M ≤ 2147483648 →
      as_unsigned v ≠ 0 ∧ M ≤ as_unsigned v) ∧
    (∀ t : List Char, Char.ofNat 0 ∉ t → c_string t = t) ∧
    (∀ t : List Char, (make_exclude t false).include_ = true ↔ ['+', ' '] <+: t) := by
  have hfuel : ∀ v : Int, ∃ k, (message_items es ++ io_item.int v :: rest).length + 1 =
      es.length + (k + 1) := by
    intro v
    have := message_items_length es
    refine ⟨(message_items es ++ io_item.int v :: rest).length - es.length, ?_⟩
    simp only [List.length_append, List.length_cons]
    omega
  refine ⟨?_, ?_, ?_, c_string_of_no_nul, ?_⟩
  · intro v hv
    obtain ⟨k, hk⟩ := hfuel v
    unfold as_unsigned at hv
    rw [recv_exclude_list, hk, recv_loop_entries M es _ hes, recv_loop]
    simp only [read_int, hv, if_true]
  · intro v hv0 hv
    obtain ⟨k, hk⟩ := hfuel v
    unfold as_unsigned at hv hv0
    rw [recv_exclude_list, hk, recv_loop_entries M es _ hes, recv_loop]
    simp only [read_int, hv0, hv, ge_iff_le, if_false, if_true]
  · intro v h1 h2 h3
    unfold as_unsigned
    omega
  · intro t
    rw [← strncmp_eq_iff_starts]
    by_cases h1 : strncmp_eq t ['-', ' '] 2 = true
    · have hp := (strncmp_eq_iff_starts t '-' ' ').1 h1
      have h2 : strncmp_eq t ['+', ' '] 2 = false := by
        rw [← Bool.not_eq_true, strncmp_eq_iff_starts]
        intro hc
        obtain ⟨a, ha⟩ := hp
        obtain ⟨b, hb⟩ := hc
        rw [← ha] at hb
        simp at hb
      simp [make_exclude, h1, h2]
    · by_cases h2 : strncmp_eq t ['+', ' '] 2 = true
      · simp [make_exclude, h1, h2]
      · simp [make_exclude, h1, h2]

/-- C11 at concrete inputs: of the message of `+ a`, `b/` and the
terminator, then of that of `b` and the length -1, with MAXPATHLEN 1024. -/
theorem recv_exclude_list_entries_witness :
    recv_exclude_list 1024
        (message_items [(3, "+ a".toList), (2, "b/".toList)] ++ [io_item.int 0]) [] =
      { exclude_list := [make_exclude "+ a".toList false, make_exclude "b/".toList false],
        exit := none } ∧
    (make_exclude "+ a".toList false).include_ = true ∧
    (make_exclude "b/".toList false).include_ = false ∧
    recv_exclude_list 1024
        (message_items [(1, "b".toList)] ++ [io_item.int (-1), io_item.byte 'x']) [] =
      { exclude_list := [make_exclude "b".toList false],
        exit := some exit_reason.overflow } :=
  ⟨(recv_exclude_list_entries 1024 [(3, "+ a".toList), (2, "b/".toList)] [] []
      (by decide)).1 0 (by decide),
   by decide, by decide,
   (recv_exclude_list_entries 1024 [(1, "b".toList)] [io_item.byte 'x'] []
      (by decide)).2.1 (-1) (by decide) (by decide)⟩

/-- C20, the code at the failing input: with MAXPATHLEN 1024, the include
rule whose pattern is 1022 times `a` is sent, without an exit, under the
length 1024, and `recv_exclude_list` exits on that message with the
overflow error. -/
theorem send_exclude_list_length_overflow :
    (send_exclude_list 1024 26 false false
      [make_exclude (List.replicate 1022 'a') true]).exit = none ∧
    (send_exclude_list 1024 26 false false
      [make_exclude (List.replicate 1022 'a') true]).out.head? = some (io_item.int 1024) ∧
    (recv_exclude_list 1024 (send_exclude_list 1024 26 false false
      [make_exclude (List.replicate 1022 'a') true]).out []).exit
      = some exit_reason.overflow := by
  set_option maxRecDepth 100000 in decide

/-! ## The tokens of a line -/

theorem drop_takeWhile_length (p : Char → Bool) (l : List Char) :
    l.drop (l.takeWhile p).length = l.dropWhile p := by
  induction l with
  | nil => rfl
  | cons a l ih =>
    by_cases h : p a = true
    · simp [List.takeWhile_cons, List.dropWhile_cons, h, ih]
    · simp [List.takeWhile_cons, List.dropWhile_cons, h]

theorem dropWhile_head_not (p : Char → Bool) (l : List Char) (w : Char) (r : List Char)
    (h : l.dropWhile p = w :: r) : p w = false := by
  induction l with
  | nil => simp at h
  | cons a l ih =>
    by_cases ha : p a = true
    · rw [List.dropWhile_cons, if_pos ha] at h
      exact ih h
    · rw [List.dropWhile_cons, if_neg ha] at h
      have : a = w := (List.cons.inj h).1
      rw [← this]
      simpa using ha

/-- The text after the token at the head of `s`, as `get_exclude_tok` reaches
it with its two skips. -/
theorem drop_token_at (s : List Char) :
    s.drop (token_at s).length =
      (if (s.head? = some '+' ∨ s.head? = some '-') ∧ s.get? 1 = some ' '
        then s.drop 2 else s).dropWhile (fun c => !isspace c) := by
  unfold token_at
  by_cases hm : (s.head? = some '+' ∨ s.head? = some '-') ∧ s.get? 1 = some ' '
  · rw [if_pos hm, if_pos hm]
    have hlen : 2 ≤ s.length := by
      match s, hm with
      | [], hm => simp at hm
      | [a], hm => simp at hm
      | a :: b :: r, _ => simp
    rw [List.length_append, List.length_take, Nat.min_eq_left hlen, ← List.drop_drop,
      drop_takeWhile_length]
  · rw [if_neg hm, if_neg hm, drop_takeWhile_length]

theorem token_at_length_pos (c : Char) (s : List Char) (hc : isspace c = false) :
    1 ≤ (token_at (c :: s)).length := by
  unfold token_at
  split
  · simp
  · simp [List.takeWhile_cons, hc]

theorem tokens_from_fuel (fuel1 fuel2 : Nat) (s : List Char)
    (h1 : s.length ≤ fuel1) (h2 : s.length ≤ fuel2) :
    tokens_from fuel1 s = tokens_from fuel2 s := by
  induction fuel1 generalizing fuel2 s with
  | zero =>
    have hs : s = [] := List.length_eq_zero.mp (Nat.le_zero.mp h1)
    subst hs
    cases fuel2 <;> rfl
  | succ k ih =>
    match s, fuel2 with
    | [], 0 => rfl
    | [], _ + 1 => rfl
    | c :: s, 0 => simp at h2
    | c :: s, k2 + 1 =>
      simp only [List.length_cons, Nat.add_le_add_iff_right] at h1 h2
      by_cases hc : isspace c = true
      · simp only [tokens_from, hc, if_true]
        exact ih k2 s h1 h2
      · have hc2 : isspace c = false := by simpa using hc
        have hpos := token_at_length_pos c s hc2
        have hl : ((c :: s).drop (token_at (c :: s)).length).length ≤ s.length := by
          simp only [List.length_drop, List.length_cons]
          omega
        simp only [tokens_from, hc, if_false, Bool.false_eq_true]
        rw [ih k2 _ (by omega) (by omega)]

theorem line_tokens_nil : line_tokens [] = [] := rfl

theorem line_tokens_space (c : Char) (s : List Char) (hc : isspace c = true) :
    line_tokens (c :: s) = line_tokens s := by
  unfold line_tokens
  simp only [List.length_cons, tokens_from, hc, if_true]

theorem line_tokens_token (c : Char) (s : List Char) (hc : isspace c = false) :
    line_tokens (c :: s) =
      token_at (c :: s) :: line_tokens ((c :: s).drop (token_at (c :: s)).length) := by
  have hpos := token_at_length_pos c s hc
  unfold line_tokens
  simp only [List.length_cons, tokens_from, hc, if_false, Bool.false_eq_true]
  rw [tokens_from_fuel _ _ _ (by simp only [List.length_drop, List.length_cons]; omega)
    (Nat.le_succ _)]

theorem line_tokens_dropWhile (s : List Char) :
    line_tokens s = line_tokens (s.dropWhile isspace) := by
  induction s with
  | nil => rfl
  | cons c s ih =>
    by_cases hc : isspace c = true
    · rw [line_tokens_space c s hc, List.dropWhile_cons, if_pos hc, ih]
    · rw [List.dropWhile_cons, if_neg hc]

theorem get_exclude_tok_some (q : List Char) (st : tok_state) (hq : q ≠ []) :
    get_exclude_tok (some q) st = get_exclude_tok none { s := q, more := true } := by
  simp [get_exclude_tok, hq]

theorem get_exclude_tok_done (st : tok_state) (h : st.more = false) :
    get_exclude_tok none st = (none, st) := by
  simp [get_exclude_tok, h]

theorem get_exclude_tok_end (s : List Char) (h : s.dropWhile isspace = []) :
    get_exclude_tok none { s := s, more := true } = (none, { s := [], more := false }) := by
  simp [get_exclude_tok, h]

theorem get_exclude_tok_token (s : List Char) (h : s.dropWhile isspace ≠ []) :
    get_exclude_tok none { s := s, more := true } =
      (some (token_at (s.dropWhile isspace)),
        if (s.dropWhile isspace).drop (token_at (s.dropWhile isspace)).length = [] then
          { s := [], more := false }
        else
          { s := ((s.dropWhile isspace).drop (token_at (s.dropWhile isspace)).length).drop 1,
            more := true }) := by
  rw [drop_token_at]
  simp only [get_exclude_tok, Bool.true_eq_false, if_false]
  generalize s.dropWhile isspace = u at h ⊢
  unfold token_at
  by_cases hm : (u.head? = some '+' ∨ u.head? = some '-') ∧ u.get? 1 = some ' '
  · simp only [hm, h, if_false, if_true, decide_True, and_self]
    split
    · rename_i he
      rw [he]
    · rfl
  · simp only [hm, h, if_false, decide_False, Bool.false_eq_true, List.nil_append]
    split
    · rename_i he
      rw [he]
    · rfl

theorem add_line_loop_none (inc : Bool) (fuel : Nat) (st : tok_state)
    (list : List exclude_struct) :
    add_line_loop inc fuel none st list = (list, st) := by
  cases fuel <;> rfl

theorem add_line_loop_tokens (inc : Bool) (fuel : Nat) (s : List Char)
    (list : List exclude_struct) (hf : s.length < fuel) :
    (add_line_loop inc fuel (get_exclude_tok none { s := s, more := true }).1
        (get_exclude_tok none { s := s, more := true }).2 list).1 =
      (line_tokens s).foldl (fun l t => add_exclude t inc l) list := by
  induction fuel generalizing s list with
  | zero => exact absurd hf (Nat.not_lt_zero _)
  | succ k ih =>
    rw [line_tokens_dropWhile s]
    have hdl : (s.dropWhile isspace).length ≤ s.length :=
      (List.dropWhile_suffix isspace).length_le
    by_cases hs : s.dropWhile isspace = []
    · rw [get_exclude_tok_end s hs, hs, line_tokens_nil, add_line_loop_none]
      rfl
    · rw [get_exclude_tok_token s hs]
      obtain ⟨c, u, hu⟩ := List.exists_cons_of_ne_nil hs
      have hc : isspace c = false := by
        have := dropWhile_head_not isspace s c u hu
        exact this
      rw [hu] at hdl ⊢
      rw [line_tokens_token c u hc]
      have hpos := token_at_length_pos c u hc
      simp only [add_line_loop, List.foldl_cons]
      by_cases hr : (c :: u).drop (token_at (c :: u)).length = []
      · rw [if_pos hr, hr, line_tokens_nil,
          get_exclude_tok_done { s := [], more := false } rfl, add_line_loop_none]
        rfl
      · rw [if_neg hr]
        obtain ⟨w, r, hwr⟩ := List.exists_cons_of_ne_nil hr
        have hw : isspace w = true := by
          have h1 := drop_token_at (c :: u)
          rw [hwr] at h1
          have := dropWhile_head_not (fun c => !isspace c) _ w r h1.symm
          simpa using this
        have hlen : r.length < k := by
          have h2 := congrArg List.length hwr
          simp only [List.length_drop, List.length_cons] at h2 hdl hf
          omega
        rw [hwr, line_tokens_space w r hw]
        simp only [List.drop_one, List.tail_cons]
        exact ih r _ hlen

theorem token_at_ne_nil (c : Char) (s : List Char) (hc : isspace c = false) :
    token_at (c :: s) ≠ [] := by
  intro h
  have := token_at_length_pos c s hc
  rw [h] at this
  simp at this

theorem isspace_plus_minus (c : Char) (h : c = '+' ∨ c = '-') : isspace c = false := by
  rcases h with h | h <;> subst h <;> decide

theorem token_at_whitespace (c : Char) (s : List Char) (i : Nat) (x : Char)
    (hx : (token_at (c :: s)).get? i = some x) (hsp : isspace x = true) :
    i = 1 ∧ x = ' ' ∧ (c = '+' ∨ c = '-') := by
  unfold token_at at hx
  by_cases hm : ((c :: s).head? = some '+' ∨ (c :: s).head? = some '-') ∧
      (c :: s).get? 1 = some ' '
  · rw [if_pos hm] at hx
    obtain ⟨hh, h1⟩ := hm
    have hcc : c = '+' ∨ c = '-' := by simpa using hh
    match s, h1 with
    | b :: r, h1 =>
      have hb : b = ' ' := by simpa using h1
      subst hb
      simp only [List.take_succ_cons, List.take_zero, List.drop_succ_cons, List.drop_zero,
        List.cons_append, List.nil_append] at hx
      match i, hx with
      | 0, hx =>
        have : c = x := by simpa using hx
        rw [← this, isspace_plus_minus c hcc] at hsp
        exact absurd hsp (by decide)
      | 1, hx =>
        have : ' ' = x := by simpa using hx
        exact ⟨rfl, this.symm, hcc⟩
      | j + 2, hx =>
        have hmem : x ∈ r.takeWhile (fun c => !isspace c) := by
          simp only [List.get?_eq_getElem?, List.getElem?_cons_succ] at hx
          exact List.getElem?_mem hx
        have := List.mem_takeWhile_imp hmem
        simp [hsp] at this
  · rw [if_neg hm] at hx
    have hmem : x ∈ (c :: s).takeWhile (fun c => !isspace c) := by
      rw [List.get?_eq_getElem?] at hx
      exact List.getElem?_mem hx
    have := List.mem_takeWhile_imp hmem
    simp [hsp] at this

theorem tokens_from_mem (fuel : Nat) (s t : List Char) (ht : t ∈ tokens_from fuel s) :
    ∃ c u, isspace c = false ∧ t = token_at (c :: u) := by
  induction fuel generalizing s with
  | zero => simp [tokens_from] at ht
  | succ k ih =>
    match s with
    | [] => simp [tokens_from] at ht
    | c :: u =>
      by_cases hc : isspace c = true
      · simp only [tokens_from, hc, if_true] at ht
        exact ih u ht
      · simp only [tokens_from, hc, if_false, Bool.false_eq_true, List.mem_cons] at ht
        rcases ht with h | h
        · exact ⟨c, u, by simpa using hc, h⟩
        · exact ih _ h

theorem line_words_nil : line_words [] = [] := by
  simp [line_words, List.splitOnP_nil]

theorem line_words_space (c : Char) (s : List Char) (hc : isspace c = true) :
    line_words (c :: s) = line_words s := by
  simp [line_words, List.splitOnP_cons, hc]

theorem line_words_word (c : Char) (u : List Char) (hc : isspace c = false) :
    line_words (c :: u) =
      (c :: u).takeWhile (fun c => !isspace c) ::
        line_words ((c :: u).dropWhile (fun c => !isspace c)) := by
  have hsplit := List.takeWhile_append_dropWhile (fun c => !isspace c) (c :: u)
  have hall : ∀ x ∈ (c :: u).takeWhile (fun c => !isspace c), ¬ isspace x = true := by
    intro x hx
    have := List.mem_takeWhile_imp hx
    simpa using this
  have hne : (c :: u).takeWhile (fun c => !isspace c) ≠ [] := by
    simp [List.takeWhile_cons, hc]
  cases hr : (c :: u).dropWhile (fun c => !isspace c) with
  | nil =>
    rw [hr, List.append_nil] at hsplit
    rw [line_words_nil, hsplit]
    have h2 : ∀ x ∈ c :: u, ¬ isspace x = true := by
      rw [hsplit] at hall
      exact hall
    rw [line_words, List.splitOnP_eq_single isspace _ h2]
    simp
  | cons w r =>
    have hw : isspace w = true := by
      have := dropWhile_head_not (fun c => !isspace c) _ w r hr
      simpa using this
    rw [line_words_space w r hw]
    rw [hr] at hsplit
    conv => lhs; rw [← hsplit]
    rw [line_words, List.splitOnP_first isspace _ hall w hw r, List.filter_cons]
    have : (!((c :: u).takeWhile (fun c => !isspace c)).isEmpty) = true := by
      cases h : (c :: u).takeWhile (fun c => !isspace c) with
      | nil => exact absurd h hne
      | cons a b => rfl
    rw [if_pos this]
    rfl

theorem line_tokens_eq_words (n : Nat) (s : List Char) (hn : s.length ≤ n)
    (hp : ¬ ['+', ' '] <:+: s) (hm : ¬ ['-', ' '] <:+: s) :
    line_tokens s = line_words s := by
  induction n generalizing s with
  | zero =>
    have hs : s = [] := List.length_eq_zero.mp (Nat.le_zero.mp hn)
    rw [hs, line_tokens_nil, line_words_nil]
  | succ k ih =>
    match s with
    | [] => rw [line_tokens_nil, line_words_nil]
    | c :: u =>
      simp only [List.length_cons, Nat.add_le_add_iff_right] at hn
      by_cases hc : isspace c = true
      · rw [line_tokens_space c u hc, line_words_space c u hc]
        exact ih u hn
          (fun h => hp (h.trans (List.suffix_cons c u).isInfix))
          (fun h => hm (h.trans (List.suffix_cons c u).isInfix))
      · have hc2 : isspace c = false := by simpa using hc
        have hmark : ¬ (((c :: u).head? = some '+' ∨ (c :: u).head? = some '-') ∧
            (c :: u).get? 1 = some ' ') := by
          rintro ⟨h1, h2⟩
          match u, h2 with
          | b :: r, h2 =>
            have hb : b = ' ' := by simpa using h2
            have hcc : c = '+' ∨ c = '-' := by simpa using h1
            subst hb
            rcases hcc with e | e
            · subst e
              exact hp (List.IsPrefix.isInfix ⟨r, rfl⟩)
            · subst e
              exact hm (List.IsPrefix.isInfix ⟨r, rfl⟩)
        have htok : token_at (c :: u) = (c :: u).takeWhile (fun c => !isspace c) := by
          unfold token_at
          rw [if_neg hmark]
        rw [line_tokens_token c u hc2, line_words_word c u hc2, htok, drop_takeWhile_length]
        have hsuf : (c :: u).dropWhile (fun c => !isspace c) <:+ u := by
          rw [List.dropWhile_cons, if_pos (by simp [hc2])]
          exact List.dropWhile_suffix _
        congr 1
        exact ih _ (hsuf.length_le.trans hn)
          (fun h => hp (h.trans (hsuf.trans (List.suffix_cons c u)).isInfix))
          (fun h => hm (h.trans (hsuf.trans (List.suffix_cons c u)).isInfix))

/-- C15: the tokens `add_exclude_line` and `add_include_line` pass to
`add_exclude`, from left to right, are the tokens of the line as the
specification words them (`line_tokens`): whitespace is skipped, and the
token at the next character is a `+` or `-` immediately followed by a space
together with everything up to the next whitespace or the end of the line,
or else everything up to the next whitespace or the end of the line. Every
token is non-empty and holds no whitespace but a space at index 1 after a
leading `+` or `-`, and a line in which no `+ ` or `- ` occurs yields its
whitespace-separated words. -/
theorem add_exclude_line_tokens (line : List Char) (st : tok_state)
    (list : List exclude_struct) :
    (add_exclude_line (some line) st list).1 =
      (line_tokens line).foldl (fun l t => add_exclude t false l) list ∧
    (add_include_line (some line) st list).1 =
      (line_tokens line).foldl (fun l t => add_exclude t true l) list ∧
    (∀ t ∈ line_tokens line, t ≠ [] ∧
      ∀ (i : Nat) (x : Char), t.get? i = some x → isspace x = true →
        i = 1 ∧ x = ' ' ∧ (t.head? = some '+' ∨ t.head? = some '-')) ∧
    (¬ ['+', ' '] <:+: line → ¬ ['-', ' '] <:+: line → line_tokens line = line_words line) := by
  refine ⟨?_, ?_, ?_, line_tokens_eq_words line.length line (Nat.le_refl _)⟩
  · by_cases hq : line = []
    · subst hq
      rfl
    · simp only [add_exclude_line, hq, if_false]
      rw [get_exclude_tok_some line st hq]
      exact add_line_loop_tokens false _ line list (Nat.lt_succ_self _)
  · by_cases hq : line = []
    · subst hq
      rfl
    · simp only [add_include_line, hq, if_false]
      rw [get_exclude_tok_some line st hq]
      exact add_line_loop_tokens true _ line list (Nat.lt_succ_self _)
  · intro t ht
    obtain ⟨c, u, hc, e⟩ := tokens_from_mem _ line t ht
    subst e
    refine ⟨token_at_ne_nil c u hc, ?_⟩
    intro i x hx hsp
    obtain ⟨h1, h2, h3⟩ := token_at_whitespace c u i x hx hsp
    refine ⟨h1, h2, ?_⟩
    have hh : (token_at (c :: u)).head? = some c := by
      unfold token_at
      split
      · match u with
        | [] => simp
        | b :: r => simp
      · simp [List.takeWhile_cons, hc]
    rw [hh]
    rcases h3 with e | e
    · exact Or.inl (by rw [e])
    · exact Or.inr (by rw [e])

/-! ## Rule files -/

theorem take_append_of_full (M : Nat) (line a b : List Char) (h : M ≤ line.length) :
    (line ++ a).take M = (line ++ b).take M := by
  rw [List.take_append_of_le_length h, List.take_append_of_le_length h]

theorem read_lines_eq_foldl (M : Nat) (inc : Bool) (content line : List Char)
    (list : List exclude_struct) (hl : line.length ≤ M - 1) :
    read_lines M false inc content line list =
      (((content.splitOnP (fun c => c == '\n' || c == '\r')).modifyHead
          (fun w => line ++ w)).map (fun l => l.take (M - 1))).foldl
        (fun acc l => add_file_line l acc inc) list := by
  induction content generalizing line list with
  | nil =>
    simp [read_lines, List.splitOnP_nil, List.modifyHead, List.take_of_length_le hl]
  | cons ch rest ih =>
    rw [List.splitOnP_cons]
    by_cases hp : (ch == '\n' || ch == '\r') = true
    · have hp2 : ch = '\n' ∨ ch = '\r' := by simpa using hp
      rw [if_pos hp]
      simp only [read_lines, Bool.false_eq_true, if_false, hp2, if_true, List.modifyHead,
        List.append_nil, List.map_cons, List.foldl_cons, List.take_of_length_le hl]
      rw [ih [] _ (Nat.zero_le _)]
      congr 2
      cases List.splitOnP (fun c => c == '\n' || c == '\r') rest with
      | nil => rfl
      | cons w ws => simp [List.modifyHead]
    · have hp2 : ¬ (ch = '\n' ∨ ch = '\r') := by simpa using hp
      rw [if_neg hp]
      simp only [read_lines, Bool.false_eq_true, if_false, hp2]
      by_cases hlen : line.length < M - 1
      · rw [if_pos hlen, ih (line ++ [ch]) list (by simp; omega)]
        congr 2
        cases List.splitOnP (fun c => c == '\n' || c == '\r') rest with
        | nil => rfl
        | cons w ws => simp [List.modifyHead]
      · rw [if_neg hlen, ih line list hl]
        congr 1
        cases List.splitOnP (fun c => c == '\n' || c == '\r') rest with
        | nil => rfl
        | cons w ws =>
          simp only [List.modifyHead, List.map_cons]
          congr 1
          exact take_append_of_full (M - 1) line _ _ (by omega)

theorem splitOnP_mem_subset (p : Char → Bool) (content w : List Char) (x : Char)
    (hw : w ∈ content.splitOnP p) (hx : x ∈ w) : x ∈ content := by
  induction content generalizing w with
  | nil =>
    rw [List.splitOnP_nil] at hw
    simp at hw
    rw [hw] at hx
    exact hx
  | cons ch rest ih =>
    rw [List.splitOnP_cons] at hw
    by_cases hp : p ch = true
    · rw [if_pos hp] at hw
      rcases List.mem_cons.mp hw with e | e
      · rw [e] at hx
        simp at hx
      · exact List.mem_cons_of_mem _ (ih w e hx)
    · rw [if_neg hp] at hw
      cases hs : List.splitOnP p rest with
      | nil => rw [hs] at hw; simp [List.modifyHead] at hw
      | cons h t =>
        rw [hs] at hw ih
        simp only [List.modifyHead, List.mem_cons] at hw
        rcases hw with e | e
        · rw [e] at hx
          rcases List.mem_cons.mp hx with e2 | e2
          · rw [e2]
            exact List.mem_cons_self _ _
          · exact List.mem_cons_of_mem _ (ih h (List.mem_cons_self _ _) e2)
        · exact List.mem_cons_of_mem _ (ih w (List.mem_cons_of_mem _ e) hx)

theorem foldl_add_file_line (inc : Bool) (ls : List (List Char))
    (list : List exclude_struct) (hnul : ∀ l ∈ ls, Char.ofNat 0 ∉ l) :
    ls.foldl (fun acc l => add_file_line l acc inc) list =
      (ls.filter (fun l => !l.isEmpty && l.head? != some ';' && l.head? != some '#')).foldl
        (fun acc l => add_exclude_list l acc inc) list := by
  induction ls generalizing list with
  | nil => rfl
  | cons l ls ih =>
    have hc := c_string_of_no_nul l (hnul l (by simp))
    have ih2 := fun list => ih list (fun x hx => hnul x (by simp [hx]))
    rw [List.foldl_cons, List.filter_cons, ih2]
    by_cases hk : (!l.isEmpty && l.head? != some ';' && l.head? != some '#') = true
    · rw [if_pos hk]
      have hk2 : l ≠ [] ∧ l.head? ≠ some ';' ∧ l.head? ≠ some '#' := by
        simp only [Bool.and_eq_true, Bool.not_eq_true', bne_iff_ne, ne_eq] at hk
        refine ⟨?_, hk.1.2, hk.2⟩
        intro e
        rw [e] at hk
        simp at hk
      simp only [add_file_line, hc, hk2, ne_eq, not_false_eq_true, and_self, if_true,
        List.foldl_cons]
    · rw [if_neg hk]
      have hk2 : ¬ (l ≠ [] ∧ l.head? ≠ some ';' ∧ l.head? ≠ some '#') := by
        rintro ⟨h1, h2, h3⟩
        apply hk
        simp only [Bool.and_eq_true, Bool.not_eq_true', bne_iff_ne, ne_eq]
        refine ⟨⟨?_, h2⟩, h3⟩
        cases l with
        | nil => exact absurd rfl h1
        | cons a b => rfl
      simp only [add_file_line, hc, hk2, if_false]

/-- C16: for a readable rule file whose content has no NUL byte, in the
default line-terminator mode, `make_exclude_list` returns the list obtained
by passing to `add_exclude_list`, in file order and with the caller's default
polarity, the lines of the file as the specification words them
(`file_lines`): the content split at every `\n` or `\r`, the last piece
being the line that the end of the input terminates, each line cut to its
first MAXPATHLEN-1 bytes, and the lines that are empty or start with `;` or
`#` left out. -/
theorem make_exclude_list_lines (M : Nat) (content : List Char)
    (list : List exclude_struct) (fatal inc : Bool) (hnul : Char.ofNat 0 ∉ content) :
    make_exclude_list M false (some content) list fatal inc =
      some ((file_lines M content).foldl (fun acc l => add_exclude_list l acc inc) list) := by
  have h1 := read_lines_eq_foldl M inc content [] list (Nat.zero_le _)
  have hmod : (content.splitOnP (fun c => c == '\n' || c == '\r')).modifyHead
      (fun w => [] ++ w) = content.splitOnP (fun c => c == '\n' || c == '\r') := by
    cases List.splitOnP (fun c => c == '\n' || c == '\r') content with
    | nil => rfl
    | cons w ws => simp [List.modifyHead]
  rw [hmod] at h1
  have hn : ∀ l ∈ (content.splitOnP (fun c => c == '\n' || c == '\r')).map
      (fun l => l.take (M - 1)), Char.ofNat 0 ∉ l := by
    intro l hl hx
    obtain ⟨w, hw, e⟩ := List.mem_map.mp hl
    rw [← e] at hx
    exact hnul (splitOnP_mem_subset _ content w _ hw (List.mem_of_mem_take hx))
  simp only [make_exclude_list, h1, foldl_add_file_line inc _ list hn, file_lines]

/-- C16 at a concrete file, with MAXPATHLEN 8: a line ended by `\r\n`, a
comment, an empty line, a line longer than 7 bytes and a last line without
terminator. -/
theorem make_exclude_list_lines_witness :
    file_lines 8 "ab\r\n;x\n\nabcdefghijk\n+ q/".toList =
      ["ab".toList, "abcdefg".toList, "+ q/".toList] ∧
    make_exclude_list 8 false (some "ab\r\n;x\n\nabcdefghijk\n+ q/".toList) [] false false =
      some [make_exclude "ab".toList false, make_exclude "abcdefg".toList false,
        make_exclude "+ q/".toList false] :=
  ⟨by decide,
   (make_exclude_list_lines 8 "ab\r\n;x\n\nabcdefghijk\n+ q/".toList [] false false
      (by decide)).trans (by decide)⟩

end Exclude
